import Mathlib

/-!
Verification of the bw-patcher firmware patching engine.

This file gives a shallow embedding, in Lean 4, of the parts of the
bw-patcher Python code base that the specification's testable claims are
about: the wildcard/mask pattern matcher (bwpatcher/utils.py), the
orchestrator patch_firmware (bwpatcher/utils.py), the checksum kernels and
header fixer (bwpatcher/core.py), the LKS32 family helpers including
_safe_ldr and fix_checksum (bwpatcher/core_lks32.py), the N32 family
patcher with its XOR envelope, padding-based size recovery and CRC
(bwpatcher/core_n32.py), the speed converters of all three chip families,
and the mi4 model patcher's speed patches (bwpatcher/modules/mi4.py).

Conventions:
* byte buffers are `List Nat` with entries below 256;
* Python exceptions become an explicit `PyErr` value in `Except`;
* Python slice reads/writes (which clamp, support negative indices
  and can grow a bytearray when the slice start lies past the end)
  are modelled by `getSliceI` / `setSliceI`;
* the external ARM assembler/disassembler (keystone/capstone) and the
  helper get_reg (imported by mi4.py but not part of the sources) are
  abstracted as an `AsmIface` record of arbitrary total functions; all
  theorems about code paths that touch them hold for every interface;
* CPython floats are binary64; the float literals appearing in the
  sources are embedded as their exact rational values, and a float
  product is modelled by `floatMul`, exact multiplication followed by
  round-to-nearest-even at 53 significant bits (the behaviour of IEEE-754
  binary64 multiplication throughout the normal range, which contains
  every value these code paths can produce).
-/

/-- Python exception kinds that the embedded code can raise. -/
inductive PyErr where
  /-- SignatureException("Pattern not found!") from find_pattern. -/
  | signatureError : PyErr
  /-- TypeError: e.g. `None & int` during mask preprocessing, calling a
      method without a required positional argument, or calling a
      non-callable class attribute. -/
  | typeError : PyErr
  /-- IndexError: sequence index out of range. -/
  | indexError : PyErr
  /-- AssertionError with the given message. -/
  | assertionError : String → PyErr
  /-- ValueError with the given message. -/
  | valueError : String → PyErr
  /-- OverflowError from int.to_bytes. -/
  | overflowError : PyErr
  /-- NotImplementedError from unimplemented base-class capabilities. -/
  | notImplementedError : PyErr
  /-- AttributeError from looking up a method that no class in the
      hierarchy defines. -/
  | attributeError : PyErr
  /-- struct.error from struct.unpack on a short byte string. -/
  | structError : PyErr
  /-- A generic Exception with the given message. -/
  | exceptionError : String → PyErr
  /-- Marks a call that would not terminate in Python
      (offset_to_nearest_word on an odd offset loops forever). -/
  | nonTermination : PyErr
  /-- Marks a code path this embedding deliberately leaves out
      (parsing a float from the value part of a patch token). -/
  | unmodelled : String → PyErr
deriving DecidableEq, Repr

/-- Python slice-index normalization for a sequence of length n:
negative indices count from the end, then the index is clamped to [0, n]. -/
def normIdx (n : Nat) (i : Int) : Nat :=
  if i < 0 then (i + n).toNat else min i.toNat n

/-- Python `data[a:b]` (step 1) on a byte sequence. -/
def getSliceI (data : List Nat) (a b : Int) : List Nat :=
  (data.take (normIdx data.length b)).drop (normIdx data.length a)

/-- Python `data[a:b] = v` (step 1) on a bytearray: replaces the selected
slice by v; when the normalized stop lies before the normalized start the
assignment inserts at the start position, and when the start lies past the
end of the buffer the bytes are appended. -/
def setSliceI (data : List Nat) (a b : Int) (v : List Nat) : List Nat :=
  data.take (normIdx data.length a) ++ v ++
    data.drop (max (normIdx data.length a) (normIdx data.length b))

/-- int.from_bytes(..., byteorder='big'). -/
def beVal (bytes : List Nat) : Nat :=
  bytes.foldl (fun acc b => acc * 256 + b) 0

/-- int.from_bytes(..., byteorder='little'). -/
def leVal (bytes : List Nat) : Nat :=
  bytes.foldr (fun b acc => b + 256 * acc) 0

/-- The little-endian byte string of length `size` for a value below
2^(8*size). -/
def leBytes : Nat → Nat → List Nat
  | 0, _ => []
  | size + 1, v => v % 256 :: leBytes size (v / 256)

/-- int.to_bytes(size, byteorder='little'): OverflowError on a negative
value or one that does not fit in `size` bytes. -/
def toBytesLE (size : Nat) (v : Int) : Except PyErr (List Nat) :=
  if v < 0 ∨ (2 ^ (8 * size) : Int) ≤ v then .error .overflowError
  else .ok (leBytes size v.toNat)

/-- struct.pack('>H', v) for v below 2^16. -/
def beBytes2 (v : Nat) : List Nat :=
  [v / 256 % 256, v % 256]

/-!
## The pattern matcher (utils.find_pattern)

A signature element is `none` for the wildcard (Python None) or
`some b` for a byte. The mask argument is `none` for Python None.
-/

/-- The mask byte used in the matcher's comparison:
`mask[j] if mask else 0xFF`. A truthy mask always has the same length as
the signature when the comparison is reached, so the default 0 of `getD`
is never used there. -/
def maskAt (mask : Option (List Nat)) (j : Nat) : Nat :=
  match mask with
  | none => 0xFF
  | some m => m.getD j 0

/-- One execution of find_pattern's inner `while` loop starting at the
given position count. Mirrors the Python evaluation order: the wildcard test
`signature[mtc] is None` short-circuits before `data[i+mtc]` is
read, so only a non-wildcard position can raise IndexError, and an empty
signature raises IndexError immediately. Returns `ok true` on a full
match, `ok false` on a mismatch. The fuel argument only needs to exceed
the count of remaining signature positions; callers pass
`sig.length + 1`. -/
def innerCheck (data : List Nat) (sig : List (Option Nat))
    (mask : Option (List Nat)) (i : Nat) : Nat → Nat → Except PyErr Bool
  | _, 0 => .error .indexError
  | mtc, fuel + 1 =>
    match sig[mtc]? with
    | none => .error .indexError
    | some none =>
      if mtc + 1 = sig.length then .ok true
      else innerCheck data sig mask i (mtc + 1) fuel
    | some (some s) =>
      match data[i + mtc]? with
      | none => .error .indexError
      | some d =>
        if s = d &&& maskAt mask mtc then
          if mtc + 1 = sig.length then .ok true
          else innerCheck data sig mask i (mtc + 1) fuel
        else .ok false

/-- find_pattern's outer `for i in range(i, stop)` loop. The fuel only
needs to exceed `stop - i`; callers pass `stop + 1`. -/
def findLoop (data : List Nat) (sig : List (Option Nat))
    (mask : Option (List Nat)) : Nat → Nat → Nat → Except PyErr Nat
  | _, _, 0 => .error .signatureError
  | i, stop, fuel + 1 =>
    if i < stop then
      match innerCheck data sig mask i 0 (sig.length + 1) with
      | .ok true => .ok i
      | .ok false => findLoop data sig mask (i + 1) stop fuel
      | .error e => .error e
    else .error .signatureError

/-- The in-place AND `signature[i] &= mask[i]` over all positions,
as the value of the whole loop: a wildcard raises TypeError
(None & int). Only called with mask of the same length as sig. -/
def premask : List (Option Nat) → List Nat → Except PyErr (List (Option Nat))
  | [], _ => .ok []
  | none :: _, _ => .error .typeError
  | some s :: st, m :: mt => (premask st mt).map (fun r => some (s &&& m) :: r)
  | some _ :: _, [] => .error .indexError

/-- The state of the caller's signature list after the premask loop ran
(possibly partially): positions before the first wildcard are ANDed with
the mask, the rest (from the wildcard on, where TypeError aborts the
loop) are unchanged. -/
def premaskPartial : List (Option Nat) → List Nat → List (Option Nat)
  | [], _ => []
  | l, [] => l
  | none :: st, _ :: _ => none :: st
  | some s :: st, m :: mt => some (s &&& m) :: premaskPartial st mt

/-- utils.find_pattern(data, signature, mask, start, maxit): returns the
first index at which the (premasked) signature mtc, searching i in
[start, stop) where stop is len(data) - len(signature), replaced by
start + maxit when maxit is given. An empty mask list is falsy in Python
and behaves like no mask. -/
def find_pattern (data : List Nat) (signature : List (Option Nat))
    (mask : Option (List Nat) := none) (start : Option Nat := none)
    (maxit : Option Nat := none) : Except PyErr Nat :=
  let start := start.getD 0
  let stop := match maxit with
    | none => data.length - signature.length
    | some m => start + m
  match mask with
  | none => findLoop data signature none start stop (stop + 1)
  | some m =>
    if m.isEmpty then findLoop data signature none start stop (stop + 1)
    else if signature.length = m.length then
      match premask signature m with
      | .error e => .error e
      | .ok sig2 => findLoop data sig2 (some m) start stop (stop + 1)
    else .error (.assertionError "mask must be as long as the signature!")

/-- find_pattern together with its side effects on the caller's
arguments: returns (result, signature list after the call, data after the
call). The buffer is never written; the signature list is mutated in
place by the mask preprocessing when a truthy mask of matching length is
supplied. -/
def find_pattern_run (data : List Nat) (signature : List (Option Nat))
    (mask : Option (List Nat) := none) (start : Option Nat := none)
    (maxit : Option Nat := none) :
    Except PyErr Nat × List (Option Nat) × List Nat :=
  let sigAfter := match mask with
    | none => signature
    | some m =>
      if m.isEmpty then signature
      else if signature.length = m.length then premaskPartial signature m
      else signature
  (find_pattern data signature mask start maxit, sigAfter, data)

/-- A byte-string signature ('SZMC-ES-ZM-'.encode() etc.) as a
wildcard-free pattern. -/
def bytesSig (l : List Nat) : List (Option Nat) :=
  l.map some

/-!
## Checksum kernels

crcmod.mkCrcFun(0x11021, initCrc=0, rev=False, xorOut=0) is the MSB-first
CRC-16 with polynomial 0x1021 and zero initial value;
crcmod.mkCrcFun(0x104C11DB7, initCrc=0xFFFFFFFF, rev=False) is the
MSB-first CRC-32 with polynomial 0x04C11DB7, initial value 0xFFFFFFFF and
no output XOR. The N32 CRC-16 (polynomial 0x8005) is written out in
core_n32.py and embedded literally.
-/

/-- Apply a function 8 times: `for _ in range(8)`. -/
def iterate8 (f : Nat → Nat) (x : Nat) : Nat :=
  f (f (f (f (f (f (f (f x)))))))

/-- One shift step of the MSB-first CRC-16 with polynomial 0x1021. -/
def crc16ccittStep (crc : Nat) : Nat :=
  if crc &&& 0x8000 ≠ 0 then ((crc <<< 1) ^^^ 0x1021) &&& 0xFFFF
  else (crc <<< 1) &&& 0xFFFF

/-- CRC-16/CCITT (XModem): polynomial 0x1021, initial value 0,
non-reflected, no output XOR. -/
def crc16ccitt (data : List Nat) : Nat :=
  data.foldl (fun crc b => iterate8 crc16ccittStep (crc ^^^ (b <<< 8))) 0

/-- One shift step of the MSB-first CRC-32 with polynomial 0x04C11DB7. -/
def crc32Step (crc : Nat) : Nat :=
  if crc &&& 0x80000000 ≠ 0 then ((crc <<< 1) ^^^ 0x04C11DB7) &&& 0xFFFFFFFF
  else (crc <<< 1) &&& 0xFFFFFFFF

/-- CRC-32: polynomial 0x04C11DB7, initial value 0xFFFFFFFF,
non-reflected, no output XOR. -/
def crc32mpeg (data : List Nat) : Nat :=
  data.foldl (fun crc b => iterate8 crc32Step (crc ^^^ (b <<< 24))) 0xFFFFFFFF

/-- CoreN32Patcher.bit_reverse_8: reverse the bit order of an 8-bit value. -/
def bit_reverse_8 (v : Nat) : Nat :=
  ((List.range 8).foldl
    (fun result i => if v &&& (1 <<< i) ≠ 0 then result ||| (1 <<< (7 - i)) else result)
    0) &&& 0xFF

/-- CoreN32Patcher.bit_reverse_16: reverse the bit order of a 16-bit value. -/
def bit_reverse_16 (v : Nat) : Nat :=
  ((List.range 16).foldl
    (fun result i => if v &&& (1 <<< i) ≠ 0 then result ||| (1 <<< (15 - i)) else result)
    0) &&& 0xFFFF

/-- One shift step of the N32 CRC-16 with polynomial 0x8005, written as in
core_n32.py. -/
def crc16n32Step (crc : Nat) : Nat :=
  if crc &&& 0x8000 ≠ 0 then ((crc <<< 1) ^^^ 0x8005) &&& 0xFFFF
  else (crc &&& 0x7FFF) <<< 1

/-- CoreN32Patcher.crc16_with_bit_reversal: CRC-16, polynomial 0x8005,
initial value 0xFFFF, every input byte bit-reversed before feeding and the
final register bit-reversed. -/
def crc16_with_bit_reversal (data : List Nat) : Nat :=
  bit_reverse_16
    (data.foldl (fun crc b => iterate8 crc16n32Step (crc ^^^ (bit_reverse_8 b <<< 8))) 0xFFFF)

/-!
## The base patcher's header checksum (core.CorePatcher)
-/

/-- CorePatcher._compute_checksum(data, offset, size): CRC-16/CCITT over
data[offset:offset+size] as 2 big-endian bytes; a size beyond the buffer
length raises. -/
def core_compute_checksum (data : List Nat) (offset size : Int) :
    Except PyErr (List Nat) :=
  if (data.length : Int) < size then
    .error (.exceptionError "Error: File is shorter than expected range.")
  else .ok (beBytes2 (crc16ccitt (getSliceI data offset (offset + size))))

/-- The `while pre == b'\0\0' and chk_ofs < 0x2e` walk over candidate
header checksum offsets; it advances by 0x10 at most three times from
either starting offset, so fuel 4 is enough. -/
def chkOfsWalk (data : List Nat) : Nat → Nat → Nat
  | ofs, 0 => ofs
  | ofs, fuel + 1 =>
    if getSliceI data ofs (ofs + 2) = [0, 0] ∧ ofs < 0x2e then
      chkOfsWalk data (ofs + 0x10) fuel
    else ofs

/-- CorePatcher.fix_checksum(start_ofs): the generic header checksum
routine. Returns the buffer unchanged when the two bytes before
start_ofs are not FF FF; otherwise derives (size, checksum offset) from
the first byte ('T' selects the Navee layout), walks past zeroed
checksum slots, recomputes the CRC-16/CCITT over
data[start_ofs:start_ofs+size] and stores it at the checksum offset. -/
def core_fix_checksum (data : List Nat) (start_ofs : Int) :
    Except PyErr (List Nat) :=
  if getSliceI data (start_ofs - 2) start_ofs ≠ [0xFF, 0xFF] then .ok data
  else
    match data.get? 0 with
    | none => .error .indexError
    | some b0 =>
      let sz : Int × Nat :=
        if b0 = 84 then ((data.length : Int) - start_ofs, 0x13)
        else ((beVal (getSliceI data 0 4) : Int), 0xa)
      let chk_ofs := chkOfsWalk data sz.2 4
      match core_compute_checksum data start_ofs sz.1 with
      | .error e => .error e
      | .ok post => .ok (setSliceI data chk_ofs (chk_ofs + 2) post)

/-!
## The LKS32 family patcher (core_lks32.LKS32Patcher)
-/

/-- The ASCII bytes of 'LKS32MC0'. -/
def lksMarker : List Nat := [0x4C, 0x4B, 0x53, 0x33, 0x32, 0x4D, 0x43, 0x30]

/-- LKS32Patcher._compute_checksum(data, offset, size): CRC-32 over
data[offset:offset+size] padded at the tail with 0xFF to a multiple of 4,
as 4 little-endian bytes. -/
def lks32_compute_checksum (data : List Nat) (offset size : Int) :
    Except PyErr (List Nat) :=
  if (data.length : Int) < size then
    .error (.exceptionError "Error: File is shorter than expected range.")
  else
    let d := getSliceI data offset (offset + size)
    let padded := d ++ List.replicate ((4 - d.length % 4) % 4) 0xFF
    .ok (leBytes 4 (crc32mpeg padded))

/-- LKS32Patcher.fix_checksum: locate 'LKS32MC0', take base = marker - 8;
skip when the two bytes before the base are not FF FF; read the body size
little-endian at the base, write the CRC-32 of
[base+0x18, base+0x18+size) at [base+4, base+8), then run the base
header checksum at the base. -/
def lks32_fix_checksum (data : List Nat) : Except PyErr (List Nat) :=
  match find_pattern data (bytesSig lksMarker) with
  | .error e => .error e
  | .ok found =>
    let ofs : Int := (found : Int) - 8
    if getSliceI data (ofs - 2) ofs ≠ [0xFF, 0xFF] then .ok data
    else
      let size : Int := (leVal (getSliceI data ofs (ofs + 4)) : Int)
      match lks32_compute_checksum data (ofs + 0x18) size with
      | .error e => .error e
      | .ok post => core_fix_checksum (setSliceI data (ofs + 4) (ofs + 8) post) ofs

/-- LKS32Patcher._safe_ldr(ldr_offset, dst_ofs): the PC base of a Thumb
LDR at ldr_offset is (ldr_offset & ~3) + 4; a destination before it
raises ValueError, otherwise the destination offset is rounded up to a
word boundary and returned with the literal's absolute offset. The
Python `int(math.ceil(min_off / 4.0))` is exact ceiling division for
every offset a firmware image can contain, embedded as (m + 3) / 4. -/
def safe_ldr (ldr_offset dst_ofs : Nat) : Except PyErr (Nat × Nat) :=
  let pc_base := (ldr_offset - ldr_offset % 4) + 4
  if dst_ofs < pc_base then
    .error (.valueError "Minimum destination offset is earlier than PC_base")
  else
    let m0 := dst_ofs - pc_base
    let m := if m0 % 4 ≠ 0 then (m0 - m0 % 4) + 4 else m0
    .ok (pc_base + ((m + 3) / 4) * 4, m)

/-!
## The N32 family patcher (core_n32.CoreN32Patcher)
-/

/-- CoreN32Patcher.encrypt_data: XOR every byte with the key 0xAA. -/
def n32_encrypt_data (data : List Nat) : List Nat :=
  data.map (fun b => b ^^^ 0xAA)

/-- CoreN32Patcher.decrypt_data: the same symmetric XOR. -/
def n32_decrypt_data (data : List Nat) : List Nat :=
  n32_encrypt_data data

/-- The scanning loop of calculate_firmware_size: walk the buffer, group
maximal runs of a constant byte in the set (0xAA, 0x00), and record the
longest run longer than 500 bytes together with the index just past it.
Returns (longest run length, index past it). The fuel only needs to reach
the length of the remaining buffer. -/
def padScan : Nat → List Nat → Nat → Nat → Nat → Nat × Nat
  | 0, _, _, maxLen, maxEnd => (maxLen, maxEnd)
  | fuel + 1, rest, pos, maxLen, maxEnd =>
    match rest with
    | [] => (maxLen, maxEnd)
    | b :: t =>
      if b = 0xAA ∨ b = 0x00 then
        let run := 1 + (t.takeWhile (fun x => x = b)).length
        if maxLen < run ∧ 500 < run then
          padScan fuel (t.drop (run - 1)) (pos + run) run (pos + run)
        else padScan fuel (t.drop (run - 1)) (pos + run) maxLen maxEnd
      else padScan fuel t (pos + 1) maxLen maxEnd

/-- CoreN32Patcher.calculate_firmware_size: the index just past the
longest padding run (when one longer than 500 bytes exists) rounded up to
the next 128-byte boundary; otherwise the full buffer length. -/
def calculate_firmware_size (data : List Nat) : Nat :=
  let r := padScan data.length data 0 0 0
  if 0 < r.2 then ((r.2 + 127) / 128) * 128 else data.length

/-- CoreN32Patcher.verify_firmware_crc: recover the firmware size, reject
anything below 66 bytes, read the stored big-endian CRC-16 at
[size-2, size) (struct.error when the slice is short) and compare with
the CRC-16-with-bit-reversal of [0x40, size-2). -/
def n32_verify_firmware_crc (fw : List Nat) :
    Except PyErr (Bool × Nat × Nat) :=
  let fw_size := calculate_firmware_size fw
  if fw_size < 0x42 then
    .error (.valueError "Firmware too small")
  else
    let crc_end := fw_size - 2
    let embBytes := getSliceI fw crc_end (crc_end + 2)
    if embBytes.length ≠ 2 then .error .structError
    else
      let embedded := beVal embBytes
      let calculated := crc16_with_bit_reversal (getSliceI fw 0x40 crc_end)
      .ok (embedded == calculated, embedded, calculated)

/-- CoreN32Patcher.is_encrypted: a firmware with a valid stored CRC is
taken to be encrypted; every exception verify_firmware_crc can raise
(ValueError, struct.error) is caught and mapped to False. -/
def n32_is_encrypted (fw : List Nat) : Bool :=
  match n32_verify_firmware_crc fw with
  | .ok r => r.1
  | .error _ => false

/-- CoreN32Patcher.patch_firmware_crc: recover the firmware size, reject
anything below 66 bytes, and store the CRC-16-with-bit-reversal of
[0x40, size-2) big-endian at [size-2, size). When the recovered size
exceeds the buffer length, the bytearray slice assignment appends and the
buffer grows. -/
def n32_patch_firmware_crc (fw : List Nat) : Except PyErr (List Nat) :=
  if calculate_firmware_size fw < 0x42 then
    .error (.valueError "Firmware too small")
  else
    .ok (setSliceI fw (calculate_firmware_size fw - 2)
      (calculate_firmware_size fw)
      (beBytes2 (crc16_with_bit_reversal
        (getSliceI fw 0x40 (calculate_firmware_size fw - 2)))))

/-- The state a CoreN32Patcher instance carries: the working buffer, the
encryption flag remembered at construction, and the envelope header and
footer when the input was a full image. -/
structure N32St where
  data : List Nat
  was_encrypted : Bool
  image_header : Option (List Nat)
  image_footer : Option (List Nat)
deriving DecidableEq, Repr

/-- CoreN32Patcher.__init__(data): when the input is at least
0x80 + 0x9880 bytes, carve out the 0x9880-byte firmware at offset 0x80
(extract_firmware_from_image; the equal-length and too-small branches are
unreachable under this guard) and remember header and footer; then detect
encryption via the stored CRC and decrypt (XOR 0xAA) if encrypted. -/
def n32_init (d : List Nat) : N32St :=
  if 0x80 + 0x9880 ≤ d.length then
    { data :=
        if n32_is_encrypted (getSliceI d 0x80 (0x80 + 0x9880)) then
          n32_decrypt_data (getSliceI d 0x80 (0x80 + 0x9880))
        else getSliceI d 0x80 (0x80 + 0x9880)
      was_encrypted := n32_is_encrypted (getSliceI d 0x80 (0x80 + 0x9880))
      image_header := some (getSliceI d 0 0x80)
      image_footer := some (getSliceI d (0x80 + 0x9880) d.length) }
  else
    { data := if n32_is_encrypted d then n32_decrypt_data d else d
      was_encrypted := n32_is_encrypted d
      image_header := none
      image_footer := none }

/-- The re-encryption step of CoreN32Patcher.fix_checksum: re-encrypt
when the firmware was originally encrypted and is currently plaintext.
The recorded patch tuple (offsets and old/new checksums) is advisory
only and not modelled. -/
def n32_fix_stage1 (st : N32St) : N32St :=
  if st.was_encrypted && !(n32_is_encrypted st.data) then
    { st with data := n32_encrypt_data st.data }
  else st

/-- CoreN32Patcher.fix_checksum: re-encrypt when the firmware was
originally encrypted and is currently plaintext (n32_fix_stage1), then
recompute and store the trailing CRC-16. -/
def n32_fix_checksum (st : N32St) : Except PyErr N32St :=
  match n32_patch_firmware_crc (n32_fix_stage1 st).data with
  | .error e => .error e
  | .ok d2 => .ok { n32_fix_stage1 st with data := d2 }

/-!
## Binary64 arithmetic

CPython floats are IEEE-754 binary64. The speed converters multiply a
float factor by the float argument; the product is the exact rational
product rounded to 53 significant bits, to nearest, ties to even (no
value these code paths produce comes near the subnormal or overflow
range). Float literals are embedded as the exact rational value of the
binary64 nearest to them.
-/

/-- Climb exponents upward: with p = 2^(e+1) and 2^e ≤ x, find the
largest exponent whose power of two is at most x. -/
def dExpUp : Nat → Int → ℚ → ℚ → Int
  | 0, e, _, _ => e
  | fuel + 1, e, p, x => if p ≤ x then dExpUp fuel (e + 1) (p * 2) x else e

/-- Scan exponents downward: with p = 2^e, find the largest exponent
whose power of two is at most x. -/
def dExpDown : Nat → Int → ℚ → ℚ → Int
  | 0, e, _, _ => e
  | fuel + 1, e, p, x => if p ≤ x then e else dExpDown fuel (e - 1) (p / 2) x

/-- The binary exponent of a positive rational in the binary64 range:
the unique e with 2^e ≤ x < 2^(e+1). -/
def dExp (x : ℚ) : Int :=
  if 1 ≤ x then dExpUp 1100 0 2 x else dExpDown 1160 (-1) (1 / 2) x

/-- Round to the nearest integer, ties to even. -/
def rne (m : ℚ) : Int :=
  if m - ⌊m⌋ < 1 / 2 then ⌊m⌋
  else if (1 : ℚ) / 2 < m - ⌊m⌋ then ⌊m⌋ + 1
  else if ⌊m⌋ % 2 = 0 then ⌊m⌋ else ⌊m⌋ + 1

/-- Round a positive rational to 53 significant bits, to nearest, ties
to even: the binary64 result of an exact operation on doubles in the
normal range. Nonpositive inputs (never produced by the embedded code
paths) map to 0. -/
def roundDouble (x : ℚ) : ℚ :=
  if x ≤ 0 then 0
  else (rne (x / 2 ^ (dExp x - 52)) : ℚ) * 2 ^ (dExp x - 52)

/-- binary64 multiplication in the normal range. -/
def floatMul (a b : ℚ) : ℚ := roundDouble (a * b)

/-- binary64 division in the normal range. -/
def floatDiv (a b : ℚ) : ℚ := roundDouble (a / b)

/-- Python int() on a float: truncation toward zero. -/
def pyInt (q : ℚ) : Int := if 0 ≤ q then ⌊q⌋ else -⌊-q⌋

/-- The exact value of the binary64 nearest to 20.9 (the ES32 factor). -/
def fl209 : ℚ := 2941413506626355 / 2 ^ 47

/-- The exact value of the binary64 nearest to 29.6 (the mi4
dashboard_max_speed upper bound). -/
def fl296 : ℚ := 4165829655317709 / 2 ^ 47

/-- The exact value of the binary64 nearest to 36.7 (the speed
remove_speed_limit_sport patches to). -/
def fl367 : ℚ := 2582532911320269 / 2 ^ 46

/-- The exact value of the binary64 nearest to 1.2. -/
def fl12 : ℚ := 5404319552844595 / 2 ^ 52

/-!
## Speed converters
-/

/-- ES32Patcher._calc_speed(speed, factor=20.9, size=2):
int(factor * speed), returned as the integer itself when size is 0 and
as size little-endian bytes otherwise. -/
def es32_calc_speed (speed : ℚ) (factor : ℚ := fl209) (size : Nat := 2) :
    Except PyErr (Int ⊕ List Nat) :=
  let v := pyInt (floatMul factor speed)
  if size = 0 then .ok (.inl v) else (toBytesLE size v).map .inr

/-- LKS32Patcher._calc_speed(kmh, factor=10, size=4): int(kmh * factor),
returned as the integer itself when size is 0 and as size little-endian
bytes otherwise. -/
def lks32_calc_speed (kmh : ℚ) (factor : ℚ := 10) (size : Nat := 4) :
    Except PyErr (Int ⊕ List Nat) :=
  let v := pyInt (floatMul kmh factor)
  if size = 0 then .ok (.inl v) else (toBytesLE size v).map .inr

/-- CoreN32Patcher._calc_speed(speed, factor=10, size=1):
int(factor * speed), returned as the integer itself when size is 0 and
as size little-endian bytes otherwise. -/
def n32_calc_speed (speed : ℚ) (factor : ℚ := 10) (size : Nat := 1) :
    Except PyErr (Int ⊕ List Nat) :=
  let v := pyInt (floatMul factor speed)
  if size = 0 then .ok (.inl v) else (toBytesLE size v).map .inr

/-!
## External assembler interface and the mi4 model patcher

keystone (CorePatcher.assembly), capstone (CorePatcher.disassembly) and
utils.get_reg (imported by mi4.py; its definition is not part of these
sources) are external to the patch logic. They are abstracted as an
arbitrary record of total functions; every theorem about code paths that
use them holds for every interface.
-/

/-- The assembler facade: assembly of a snippet to bytes, disassembly of
bytes to text, and get_reg(text, default) choosing a register name. -/
structure AsmIface where
  asm : String → List Nat
  disasm : List Nat → String
  getReg : String → String → String

/-- LKS32Patcher._branch_from_to(sig, sig_dst, desc, dst_offset=4):
assemble a branch at the end of the first match of sig, targeting the
first match of sig_dst at or after it plus dst_offset; no write when the
bytes already equal the planned encoding. -/
def lks32_branch_from_to (ifc : AsmIface) (data : List Nat)
    (sig sig_dst : List (Option Nat)) (dst_offset : Nat := 4) :
    Except PyErr (List Nat) :=
  match find_pattern data sig with
  | .error e => .error e
  | .ok f1 =>
    let ofs := f1 + sig.length
    match find_pattern data sig_dst none (some ofs) with
    | .error e => .error e
    | .ok f2 =>
      let ofs_dst := f2 + dst_offset
      let pre := getSliceI data ofs (ofs + 2)
      let post := ifc.asm ("b " ++ toString ((ofs_dst : Int) - (ofs : Int)))
      if pre ≠ post then .ok (setSliceI data ofs (ofs + 2) post) else .ok data

/-- LKS32Patcher.fake_drv_version(firmware_version): the version must be
exactly four digits; locate the "ok\r????\rerror" signature and overwrite
the four bytes after the first three. -/
def lks32_fake_drv_version (data : List Nat) (v : String) :
    Except PyErr (List Nat) :=
  if !(v.length > 0 && v.toList.all Char.isDigit) then
    .error (.valueError "Firmware version must contain only digits")
  else if v.length ≠ 4 then
    .error (.valueError "Firmware version must have 4 digits")
  else
    match find_pattern data [some 0x6F, some 0x6B, some 0x0D, none, none,
        none, none, some 0x0D, some 0x65, some 0x72, some 0x72, some 0x6F,
        some 0x72] with
    | .error e => .error e
    | .ok f =>
      let ofs := f + 3
      .ok (setSliceI data ofs (ofs + 4) (v.toList.map Char.toNat))

/-- The LKS32 cruise-control-enable signature. -/
def lks32_cce_sig : List (Option Nat) :=
  [some 0x81, some 0x06, none, some 0x4b, some 0xc9, some 0x0f, some 0x19,
   some 0x70, some 0x01, some 0x07, none, some 0x4b, some 0xc9, some 0x0f,
   some 0x19, some 0x70]

/-- LKS32Patcher.cruise_control_enable on mi4: assemble movs r1,#0x1 at
the located decision site; mi4 defines no SIG_CCU, so the subsequent
cruise-control-unlock step returns without touching the buffer. -/
def mi4_cruise_control_enable (ifc : AsmIface) (data : List Nat) :
    Except PyErr (List Nat) :=
  match find_pattern data lks32_cce_sig with
  | .error e => .error e
  | .ok f =>
    let ofs := f + 4
    .ok (setSliceI data ofs (ofs + 2) (ifc.asm "movs r1, #0x1"))

/-- Mi4Patcher's branch-source signature. -/
def mi4_sig_branch_src : List (Option Nat) :=
  [some 0x20, some 0x31, none, some 0x72, some 0x0F, none, none, some 0x72]

/-- Mi4Patcher's branch-destination signature. -/
def mi4_sig_branch_dst : List (Option Nat) :=
  bytesSig [0xF5, 0x31, 0x01, 0x83, 0x11, 0x48]

/-- The text of mi4's dashboard_max_speed replacement snippet. -/
def mi4_dms_snippet (s : Int) : String :=
  "MOVS R1, #" ++ toString s ++ "; LSLS R1,R1,#0x1; CMP R1,R0; BCS 10; MOVS R0, R1"

/-- Mi4Patcher.dashboard_max_speed(speed): a bare assert bounds the speed
by 1.0 and 29.6 (an out-of-range value raises AssertionError, not a
dedicated parameter error); the replacement computes int(speed/2*10),
assembles a fixed five-instruction sequence, checks its 10-byte length by
another assert and splices it over the located site. -/
def mi4_dashboard_max_speed (ifc : AsmIface) (data : List Nat) (speed : ℚ) :
    Except PyErr (List Nat) :=
  if ¬(1 ≤ speed ∧ speed ≤ fl296) then
    .error (.assertionError "Speed must be between 1.0 and 29.6km/h")
  else
    let s := pyInt (floatMul (floatDiv speed 2) 10)
    match find_pattern data (bytesSig [0x01, 0x46, 0xF3, 0x39, 0x11, 0x29,
        0x00, 0xD2, 0xFF, 0x20]) with
    | .error e => .error e
    | .ok ofs =>
      let post_if := ifc.asm (mi4_dms_snippet s)
      if post_if.length ≠ 10 then
        .error (.assertionError "wrong length of post bytes")
      else .ok (setSliceI data ofs (ofs + post_if.length) post_if)

/-- Mi4Patcher.speed_limit_drive(kmh): install the branch redirect, find
the drive-limit site, relocate a 4-byte literal int(kmh*10) through
_safe_ldr and rewrite the site to a pc-relative load. No range check of
any kind is performed on kmh. -/
def mi4_speed_limit_drive (ifc : AsmIface) (data : List Nat) (kmh : ℚ) :
    Except PyErr (List Nat) :=
  match lks32_branch_from_to ifc data mi4_sig_branch_src mi4_sig_branch_dst with
  | .error e => .error e
  | .ok d1 =>
    match find_pattern d1 [some 0xCA, none, none, some 0x80, none, none,
        some 0xB9, some 0x21, none, some 0x80] with
    | .error e => .error e
    | .ok ofs =>
      match find_pattern d1 mi4_sig_branch_src none (some ofs) with
      | .error e => .error e
      | .ok f2 =>
        let ofs_dst := f2 + mi4_sig_branch_src.length + 2
        match safe_ldr ofs ofs_dst with
        | .error e => .error e
        | .ok (speed_ofs, ldr_ofs) =>
          match toBytesLE 4 (pyInt (floatMul kmh 10)) with
          | .error e => .error e
          | .ok speedBytes =>
            let d2 := setSliceI d1 speed_ofs (speed_ofs + 4) speedBytes
            let pre := getSliceI d2 ofs (ofs + 2)
            let reg := ifc.getReg (ifc.disasm pre) "r4"
            let post := ifc.asm ("ldr " ++ reg ++ ",[pc, #" ++ toString ldr_ofs ++ "]")
            if post.length ≠ 2 then
              .error (.assertionError "Wrong length of post bytes")
            else .ok (setSliceI d2 ofs (ofs + 2) post)

/-- Mi4Patcher.speed_limit_sport(kmh): as speed_limit_drive with the
sport-limit signature, a destination 6 bytes past the branch-source match
and default register r1. No range check is performed on kmh. -/
def mi4_speed_limit_sport (ifc : AsmIface) (data : List Nat) (kmh : ℚ) :
    Except PyErr (List Nat) :=
  match lks32_branch_from_to ifc data mi4_sig_branch_src mi4_sig_branch_dst with
  | .error e => .error e
  | .ok d1 =>
    match find_pattern d1 (bytesSig [0xFC, 0x21, 0x41, 0x80, 0x78, 0x21,
        0x81, 0x81]) with
    | .error e => .error e
    | .ok ofs =>
      match find_pattern d1 mi4_sig_branch_src none (some ofs) with
      | .error e => .error e
      | .ok f2 =>
        let ofs_dst := f2 + mi4_sig_branch_src.length + 6
        match safe_ldr ofs ofs_dst with
        | .error e => .error e
        | .ok (speed_ofs, ldr_ofs) =>
          match toBytesLE 4 (pyInt (floatMul kmh 10)) with
          | .error e => .error e
          | .ok speedBytes =>
            let d2 := setSliceI d1 speed_ofs (speed_ofs + 4) speedBytes
            let pre := getSliceI d2 ofs (ofs + 2)
            let reg := ifc.getReg (ifc.disasm pre) "r1"
            let post := ifc.asm ("ldr " ++ reg ++ ",[pc, #" ++ toString ldr_ofs ++ "]")
            if post.length ≠ 2 then
              .error (.assertionError "Wrong length of post bytes")
            else .ok (setSliceI d2 ofs (ofs + 2) post)

/-- Mi4Patcher.remove_speed_limit_sport: speed_limit_sport at 36.7 km/h. -/
def mi4_remove_speed_limit_sport (ifc : AsmIface) (data : List Nat) :
    Except PyErr (List Nat) :=
  mi4_speed_limit_sport ifc data fl367

/-!
## The orchestrator (utils.patch_firmware)

The registry holds nine model patchers; the claims exercise the LKS32
family through mi4 and the N32 family through mi5elite, so the embedded
model type carries those two (the orchestrator's own logic is identical
for every model). Patch tokens are the source's strings. A token of the
form name=value parses value as a float for every name except fdv;
parsing a float from a string is outside this embedding, so such tokens
map to a distinguished `unmodelled` error and the theorems below are
stated over token lists without them.
-/

/-- The models embedded here. -/
inductive Model where
  | mi4 : Model
  | mi5elite : Model
deriving DecidableEq, Repr

/-- The patcher state: a bare buffer for the LKS32 family, the
N32 construction state for mi5elite. -/
inductive PatchSt where
  | lks : List Nat → PatchSt
  | n32 : N32St → PatchSt
deriving DecidableEq, Repr

/-- The working buffer of a patcher state (patcher.data). -/
def PatchSt.buf : PatchSt → List Nat
  | .lks d => d
  | .n32 st => st.data

/-- Construct the model's patcher over the input bytes. The LKS32 and
ES32 constructors keep the bytes unchanged; the N32 constructor carves
out and possibly decrypts the firmware. -/
def initPatcher : Model → List Nat → PatchSt
  | .mi4, d => .lks d
  | .mi5elite, d => .n32 (n32_init d)

/-- The keys of utils.patch_map. -/
def patchNames : List String :=
  ["rsls", "dms", "sld", "sls", "rfm", "fdv", "chk", "mss", "cce"]

/-- Dispatch of a bare patch token (no value): the named capability is
called with no arguments. On mi4: chk, rsls, rfm and cce run; dms, sld,
sls, mss and fdv require a positional argument, so the bare call raises
TypeError. On mi5elite: chk runs; rsls is a DeprecationWarning instance
left by its decorator and is not callable (TypeError); rfm falls through
to CorePatcher.region_free (NotImplementedError); cce is defined nowhere
in the class chain (AttributeError); dms, sld, sls, mss and fdv require
a positional argument (TypeError). -/
def applyBare (ifc : AsmIface) (m : Model) (st : PatchSt) (name : String) :
    Except PyErr PatchSt :=
  match m, st with
  | .mi4, .lks d =>
    if name = "chk" then (lks32_fix_checksum d).map .lks
    else if name = "rsls" then (mi4_remove_speed_limit_sport ifc d).map .lks
    else if name = "rfm" then .ok (.lks d)
    else if name = "cce" then (mi4_cruise_control_enable ifc d).map .lks
    else .error .typeError
  | .mi5elite, .n32 s =>
    if name = "chk" then (n32_fix_checksum s).map .n32
    else if name = "rfm" then .error .notImplementedError
    else if name = "cce" then .error .attributeError
    else .error .typeError
  | .mi4, .n32 _ => .error (.unmodelled "state mismatch")
  | .mi5elite, .lks _ => .error (.unmodelled "state mismatch")

/-- Dispatch of the fdv token with its raw string value: a falsy (empty)
value leads to a no-argument call (TypeError); mi4 inherits the LKS32
implementation, mi5elite falls through to CorePatcher.fake_drv_version
(NotImplementedError). -/
def applyFdv (m : Model) (st : PatchSt) (value : String) :
    Except PyErr PatchSt :=
  if value = "" then .error .typeError
  else
    match m, st with
    | .mi4, .lks d => (lks32_fake_drv_version d value).map .lks
    | .mi5elite, .n32 _ => .error .notImplementedError
    | _, _ => .error (.unmodelled "state mismatch")

/-- str.split('=') on the character list of a token. -/
def splitEqChars : List Char → List Char → List (List Char)
  | [], acc => [acc.reverse]
  | c :: t, acc =>
    if c = '=' then acc.reverse :: splitEqChars t []
    else splitEqChars t (c :: acc)

/-- One iteration of the orchestrator's dispatch loop for one token, in
web mode (web=True), where any exception a patch raises aborts the
session. A name=value token splits on '='; the value is a float for
every name except fdv (float parsing is not embedded; see above).
Unknown names are recorded in the error list, printed, and skipped —
they abort nothing even in web mode. -/
def applyToken (ifc : AsmIface) (m : Model) (st : PatchSt) (tok : String) :
    Except PyErr PatchSt :=
  if tok.data.contains '=' then
    match (splitEqChars tok.data []).map String.mk with
    | [name, value] =>
      if name = "fdv" then applyFdv m st value
      else .error (.unmodelled "float patch value")
    | _ => .error (.valueError "unpack")
  else if tok ∈ patchNames then applyBare ifc m st tok
  else .ok st

/-- The orchestrator's dispatch loop: fold the tokens over the freshly
constructed patcher state. -/
def patch_session (ifc : AsmIface) (model : Model) (data : List Nat)
    (patches : List String) : Except PyErr PatchSt :=
  patches.foldlM (applyToken ifc model) (initPatcher model data)

/-- utils.patch_firmware(model, data, patches, web=True): construct the
model's patcher over the bytes, dispatch each token in order and return
the final buffer. The patch list is used exactly as given — nothing is
appended to it (the source's chk-forcing block is commented out). -/
def patch_firmware (ifc : AsmIface) (model : Model) (data : List Nat)
    (patches : List String) : Except PyErr (List Nat) :=
  (patch_session ifc model data patches).map PatchSt.buf

/-- Decidable equality of session results. -/
instance {ε α : Type} [DecidableEq ε] [DecidableEq α] :
    DecidableEq (Except ε α) := fun a b =>
  match a, b with
  | .ok x, .ok y =>
    if h : x = y then .isTrue (by rw [h]) else
      .isFalse (fun hh => h (by injection hh))
  | .error x, .error y =>
    if h : x = y then .isTrue (by rw [h]) else
      .isFalse (fun hh => h (by injection hh))
  | .ok _, .error _ => .isFalse (fun hh => by injection hh)
  | .error _, .ok _ => .isFalse (fun hh => by injection hh)

/-!
## Theorems
-/

/-- Every element of an encrypted buffer is the XOR of the original. -/
theorem n32_encrypt_encrypt (x : List Nat) :
    n32_encrypt_data (n32_encrypt_data x) = x := by
  unfold n32_encrypt_data
  rw [List.map_map]
  apply List.map_id''
  intro b
  simp [Nat.xor_assoc]

/-- C6: for every byte string x, the N32 XOR-0xAA transform satisfies
encrypt_data x = decrypt_data x and decrypt_data (encrypt_data x) = x. -/
theorem c6_xor_involution (x : List Nat) :
    n32_decrypt_data (n32_encrypt_data x) = x ∧
      n32_encrypt_data x = n32_decrypt_data x :=
  ⟨n32_encrypt_encrypt x, rfl⟩

/-- C5: whenever _safe_ldr(src, dst) returns (lit, imm) — which happens
exactly when dst is at least the PC base (src & ~3) + 4 — the literal
offset is word-aligned, at least dst, and lies imm bytes past the PC
base (imm is a natural number, hence nonnegative). -/
theorem c5_safe_ldr_spec (s d lit imm : Nat)
    (h : safe_ldr s d = .ok (lit, imm)) :
    lit % 4 = 0 ∧ d ≤ lit ∧ lit = (s - s % 4 + 4) + imm ∧
      lit - (s - s % 4 + 4) = imm ∧
      ∀ a b : Nat, (safe_ldr a b).isOk = true ↔ (a - a % 4 + 4) ≤ b := by
  have hiff : ∀ a b : Nat, (safe_ldr a b).isOk = true ↔ (a - a % 4 + 4) ≤ b := by
    intro a b
    unfold safe_ldr
    by_cases hc : b < a - a % 4 + 4
    · simp [hc, Except.isOk, Except.toBool]
    · simp [hc, Except.isOk, Except.toBool]
      omega
  unfold safe_ldr at h
  by_cases hc : d < s - s % 4 + 4
  · simp [hc] at h
  · simp [hc] at h
    set pc := s - s % 4 + 4 with hpc
    set m0 := d - pc with hm0
    by_cases h4 : m0 % 4 = 0
    · simp [h4] at h
      obtain ⟨hl, hi⟩ := h
      refine ⟨?_, ?_, ?_, ?_, hiff⟩ <;> omega
    · simp [h4] at h
      obtain ⟨hl, hi⟩ := h
      refine ⟨?_, ?_, ?_, ?_, hiff⟩ <;> omega

/-- Witness for C5 at src = 0x101, dst = 0x113: the PC base is 0x104,
the literal lands at 0x114 with immediate 0x10. -/
theorem c5_safe_ldr_witness :
    safe_ldr 0x101 0x113 = .ok (0x114, 0x10) ∧
      (0x114 % 4 = 0 ∧ 0x113 ≤ 0x114 ∧
        0x114 = (0x101 - 0x101 % 4 + 4) + 0x10 ∧
        0x114 - (0x101 - 0x101 % 4 + 4) = 0x10 ∧
        ∀ a b : Nat, (safe_ldr a b).isOk = true ↔ (a - a % 4 + 4) ≤ b) :=
  ⟨by decide, c5_safe_ldr_spec 0x101 0x113 0x114 0x10 (by decide)⟩

/-- The premask loop raises TypeError whenever the signature contains a
wildcard and the mask covers the whole signature. -/
theorem premask_wildcard (sig : List (Option Nat)) (mask : List Nat)
    (hw : none ∈ sig) (hl : sig.length ≤ mask.length) :
    premask sig mask = .error .typeError := by
  induction sig generalizing mask with
  | nil => cases hw
  | cons s t ih =>
    cases mask with
    | nil => simp at hl
    | cons m mt =>
      cases s with
      | none => rfl
      | some v =>
        have hw' : none ∈ t := by
          cases hw with
          | tail _ h => exact h
        simp only [premask, ih mt hw' (by simpa using Nat.le_of_succ_le_succ hl)]
        rfl

/-- C10: combining a mask of matching length with a signature that
contains at least one wildcard always raises TypeError in the mask
preprocessing step (None & int), regardless of the buffer. -/
theorem c10_wildcard_mask_typeerror (data : List Nat)
    (sig : List (Option Nat)) (mask : List Nat) (start maxit : Option Nat)
    (hw : none ∈ sig) (hl : mask.length = sig.length) :
    find_pattern data sig (some mask) start maxit = .error .typeError := by
  have hm : mask.isEmpty = false := by
    cases mask with
    | nil =>
      exfalso
      have : sig = [] := List.length_eq_zero.mp hl.symm
      subst this
      cases hw
    | cons _ _ => rfl
  unfold find_pattern
  simp [hm, hl, premask_wildcard sig mask hw (le_of_eq hl.symm)]

/-- Witness for C10: a two-byte signature with one wildcard and a
two-byte mask fails with TypeError on a concrete buffer. -/
theorem c10_witness :
    (none ∈ [some 1, none] ∧ [0xFF, 0xFF].length = [some 1, none].length) ∧
      find_pattern [1, 2, 3] [some 1, none] (some [0xFF, 0xFF]) none none =
        .error .typeError :=
  ⟨⟨by decide, by decide⟩,
    c10_wildcard_mask_typeerror [1, 2, 3] [some 1, none] [0xFF, 0xFF]
      none none (by decide) (by decide)⟩

/-- An empty (falsy) mask leaves the signature untouched. -/
theorem premaskPartial_nil (sig : List (Option Nat)) :
    premaskPartial sig [] = sig := by
  cases sig with
  | nil => rfl
  | cons s t => cases s <;> rfl

/-- premaskPartial preserves the signature length. -/
theorem premaskPartial_length (sig : List (Option Nat)) (m : List Nat) :
    (premaskPartial sig m).length = sig.length := by
  induction sig generalizing m with
  | nil => cases m <;> rfl
  | cons s t ih =>
    cases m with
    | nil => cases s <;> rfl
    | cons mv mt =>
      cases s with
      | none => rfl
      | some v => simp [premaskPartial, ih mt]

/-- Premasking the partially premasked signature again changes nothing:
the AND with the mask is idempotent and the first wildcard is preserved. -/
theorem premask_premaskPartial (sig : List (Option Nat)) (m : List Nat) :
    premask (premaskPartial sig m) m = premask sig m ∧
      premaskPartial (premaskPartial sig m) m = premaskPartial sig m := by
  induction sig generalizing m with
  | nil => cases m <;> exact ⟨rfl, rfl⟩
  | cons s t ih =>
    cases m with
    | nil =>
      cases s with
      | none => exact ⟨rfl, rfl⟩
      | some v => exact ⟨rfl, rfl⟩
    | cons mv mt =>
      cases s with
      | none => exact ⟨rfl, rfl⟩
      | some v =>
        have h := ih mt
        constructor
        · simp [premaskPartial, premask, Nat.and_assoc, h.1]
        · simp [premaskPartial, Nat.and_assoc, h.2]

/-- A signature premasked in place searches identically to the original:
the premask is idempotent and lengths agree, so an immediately repeated
find_pattern call returns the same result. -/
theorem find_pattern_premasked (data : List Nat) (sig : List (Option Nat))
    (m : List Nat) (start maxit : Option Nat) :
    find_pattern data (premaskPartial sig m) (some m) start maxit =
      find_pattern data sig (some m) start maxit := by
  by_cases he : m.isEmpty
  · have hm : m = [] := List.isEmpty_iff.mp he
    subst hm
    rw [premaskPartial_nil]
  · simp only [find_pattern, premaskPartial_length,
      (premask_premaskPartial sig m).1]
    simp [he]

/-- C9 counterexample: the matcher is not free of side effects on its
arguments — a call with a mask rewrites the caller's signature in place
(here [0xFF] becomes [0x0F]). -/
theorem c9_counterexample :
    (find_pattern_run [0, 9] [some 0xFF] (some [0x0F]) none none).2.1 ≠
      [some 0xFF] := by decide

/-- C9 amended: the matcher never writes the buffer and is idempotent —
an immediately repeated call (which in Python receives the signature the
first call premasked in place) returns the same result and leaves the
state fixed — but when a truthy mask of matching length is passed the
caller's signature list has been ANDed with the mask up to the first
wildcard; only a mask-less call leaves the signature unchanged. -/
theorem c9_amended (data : List Nat) (sig : List (Option Nat))
    (mask : Option (List Nat)) (start maxit : Option Nat) :
    (find_pattern_run data sig mask start maxit).2.2 = data ∧
      find_pattern_run data
          ((find_pattern_run data sig mask start maxit).2.1) mask start maxit =
        find_pattern_run data sig mask start maxit ∧
      (mask = none → (find_pattern_run data sig mask start maxit).2.1 = sig) := by
  refine ⟨?_, ?_, ?_⟩
  · cases mask <;> rfl
  · cases mask with
    | none => rfl
    | some m =>
      by_cases he : m.isEmpty
      · simp [find_pattern_run, he]
      · by_cases hl : sig.length = m.length
        · simp [find_pattern_run, he, hl, premaskPartial_length,
            (premask_premaskPartial sig m).2, find_pattern_premasked]
        · simp [find_pattern_run, he, hl]
  · intro h
    subst h
    rfl

/-- Witness for C9's amended theorem: the mask-none clause at concrete
arguments. -/
theorem c9_witness :
    (find_pattern_run [1, 2, 3] [some 2] none none none).2.2 = [1, 2, 3] ∧
      (find_pattern_run [1, 2, 3] [some 2] none none none).2.1 = [some 2] :=
  ⟨(c9_amended [1, 2, 3] [some 2] none none none).1,
    (c9_amended [1, 2, 3] [some 2] none none none).2.2 rfl⟩

/-!
## Functional correctness of the pattern matcher (C4)
-/

/-- Whether signature position j matches at buffer offset i, mirroring
the matcher's comparison: a wildcard always matches, a byte s matches
when s equals the buffer byte ANDed with the mask byte (0xFF without a
mask). An out-of-range buffer read counts as a mismatch; the bounded
theorems below never consult it. -/
def matchElemB (data : List Nat) (sig : List (Option Nat))
    (mask : Option (List Nat)) (i j : Nat) : Bool :=
  match sig[j]? with
  | none => true
  | some none => true
  | some (some s) =>
    match data[i + j]? with
    | none => false
    | some d => s == d &&& maskAt mask j

/-- The signature matches at offset i: every position matches. -/
def matchesAt (data : List Nat) (sig : List (Option Nat))
    (mask : Option (List Nat)) (i : Nat) : Prop :=
  ∀ j, j < sig.length → matchElemB data sig mask i j = true

/-- matchesAt is decidable. -/
instance (data : List Nat) (sig : List (Option Nat))
    (mask : Option (List Nat)) (i : Nat) :
    Decidable (matchesAt data sig mask i) :=
  Nat.decidableBallLT _ _

/-- The signature the search loop actually compares after the in-place
mask preprocessing: every non-wildcard byte ANDed with its mask byte. -/
def premaskedList (sig : List (Option Nat)) (m : List Nat) :
    List (Option Nat) :=
  sig.zipWith (fun s mv => s.map (fun v => v &&& mv)) m

/-- The signature find_pattern searches for: the caller's signature,
premasked when a truthy mask is given. -/
def effSig (sig : List (Option Nat)) : Option (List Nat) → List (Option Nat)
  | none => sig
  | some m => if m.isEmpty then sig else premaskedList sig m

/-- The mask find_pattern compares under: an empty mask list is falsy in
Python and behaves like the default 0xFF mask. -/
def effMask : Option (List Nat) → Option (List Nat)
  | none => none
  | some m => if m.isEmpty then none else some m

/-- The mask configurations under which the search loop is reached
without a TypeError or failed assert: no mask, an empty (falsy) mask, or
a mask covering the whole signature with no wildcard present. -/
def maskOk (sig : List (Option Nat)) : Option (List Nat) → Prop
  | none => True
  | some m => m.isEmpty = true ∨ (sig.length = m.length ∧ none ∉ sig)

/-- The exclusive upper end of the index range find_pattern scans:
len(data) - len(signature), replaced by start + maxit when maxit is
given (not capped by the buffer). -/
def searchStop (data : List Nat) (sig : List (Option Nat))
    (start maxit : Option Nat) : Nat :=
  match maxit with
  | none => data.length - sig.length
  | some m => start.getD 0 + m

/-- On a wildcard-free signature fully covered by the mask, the premask
loop succeeds and returns the pointwise AND. -/
theorem premask_eq_ok (sig : List (Option Nat)) (m : List Nat)
    (hw : none ∉ sig) (hl : sig.length = m.length) :
    premask sig m = .ok (premaskedList sig m) := by
  induction sig generalizing m with
  | nil =>
    have : m = [] := List.length_eq_zero.mp hl.symm
    subst this
    rfl
  | cons s t ih =>
    cases m with
    | nil => simp at hl
    | cons mv mt =>
      cases s with
      | none => exact absurd (List.mem_cons_self _ _) hw
      | some v =>
        have hw' : none ∉ t := fun h => hw (List.mem_cons_of_mem _ h)
        have hl' : t.length = mt.length := by simpa using hl
        simp [premask, premaskedList, ih mt hw' hl', Except.map]

/-- The premasked signature has the signature's length when the mask
covers it. -/
theorem premaskedList_length (sig : List (Option Nat)) (m : List Nat)
    (hl : sig.length = m.length) :
    (premaskedList sig m).length = sig.length := by
  simp [premaskedList, hl]

/-- The inner while loop, entered at position k with enough fuel and an
in-range window, returns exactly whether all remaining positions match. -/
theorem innerCheck_eq (data : List Nat) (sig : List (Option Nat))
    (mask : Option (List Nat)) (i : Nat) :
    ∀ fuel k, sig.length - k < fuel → k < sig.length →
      i + sig.length ≤ data.length →
      innerCheck data sig mask i k fuel =
        .ok (decide (∀ j, j < sig.length → k ≤ j →
          matchElemB data sig mask i j = true)) := by
  intro fuel
  induction fuel with
  | zero => intro k hf _ _; omega
  | succ f ih =>
    intro k hf hk hb
    cases hel : sig[k]? with
    | none =>
      exfalso
      rw [List.getElem?_eq_none_iff] at hel
      omega
    | some el =>
      cases el with
      | none =>
        have hme : matchElemB data sig mask i k = true := by
          simp [matchElemB, hel]
        by_cases hlast : k + 1 = sig.length
        · simp only [innerCheck, hel, if_pos hlast]
          congr 1
          symm
          rw [decide_eq_true_eq]
          intro j hj hkj
          have : j = k := by omega
          subst this
          exact hme
        · have hrec := ih (k + 1) (by omega) (by omega) hb
          simp only [innerCheck, hel, if_neg hlast, hrec]
          congr 1
          rw [decide_eq_decide]
          constructor
          · intro hall j hj hkj
            rcases Nat.eq_or_lt_of_le hkj with h | h
            · subst h; exact hme
            · exact hall j hj h
          · intro hall j hj hkj
            exact hall j hj (by omega)
      | some s =>
        cases hdd : data[i + k]? with
        | none =>
          exfalso
          rw [List.getElem?_eq_none_iff] at hdd
          omega
        | some d =>
          by_cases hcmp : s = d &&& maskAt mask k
          · have hme : matchElemB data sig mask i k = true := by
              simp [matchElemB, hel, hdd, hcmp]
            by_cases hlast : k + 1 = sig.length
            · simp only [innerCheck, hel, hdd, if_pos hcmp, if_pos hlast]
              congr 1
              symm
              rw [decide_eq_true_eq]
              intro j hj hkj
              have : j = k := by omega
              subst this
              exact hme
            · have hrec := ih (k + 1) (by omega) (by omega) hb
              simp only [innerCheck, hel, hdd, if_pos hcmp, if_neg hlast, hrec]
              congr 1
              rw [decide_eq_decide]
              constructor
              · intro hall j hj hkj
                rcases Nat.eq_or_lt_of_le hkj with h | h
                · subst h; exact hme
                · exact hall j hj h
              · intro hall j hj hkj
                exact hall j hj (by omega)
          · have hme : matchElemB data sig mask i k = false := by
              simp [matchElemB, hel, hdd]
              exact hcmp
            simp only [innerCheck, hel, hdd, if_neg hcmp]
            congr 1
            symm
            rw [decide_eq_false_iff_not]
            intro hall
            have := hall k hk (le_refl k)
            rw [hme] at this
            exact Bool.false_ne_true this

/-- The outer loop, entered at index i with enough fuel and an in-range
window for every scanned index, returns the least matching index in
[i, stop) and the pattern-not-found error exactly when none exists. -/
theorem findLoop_eq (data : List Nat) (sig : List (Option Nat))
    (mask : Option (List Nat)) (stop : Nat) (hsig : sig ≠ []) :
    ∀ fuel i, stop ≤ i + fuel →
      (∀ k, i ≤ k → k < stop → k + sig.length ≤ data.length) →
      ((∀ r, findLoop data sig mask i stop fuel = .ok r ↔
          i ≤ r ∧ r < stop ∧ matchesAt data sig mask r ∧
            ∀ k, k < r → i ≤ k → ¬ matchesAt data sig mask k) ∧
        (findLoop data sig mask i stop fuel = .error .signatureError ↔
          ∀ k, k < stop → i ≤ k → ¬ matchesAt data sig mask k)) := by
  intro fuel
  induction fuel with
  | zero =>
    intro i hf _
    have hstop : stop ≤ i := by omega
    constructor
    · intro r
      simp only [findLoop]
      constructor
      · intro h; cases h
      · intro ⟨h1, h2, _, _⟩; omega
    · simp only [findLoop]
      constructor
      · intro _ k hk hik; omega
      · intro _; trivial
  | succ f ih =>
    intro i hf hb
    by_cases hi : i < stop
    · have hlen : 0 < sig.length := List.length_pos.mpr hsig
      have hinner := innerCheck_eq data sig mask i (sig.length + 1) 0
        (by omega) (by omega) (hb i (le_refl i) hi)
      have hmeq : (∀ j, j < sig.length → 0 ≤ j →
          matchElemB data sig mask i j = true) ↔ matchesAt data sig mask i := by
        constructor
        · intro h j hj; exact h j hj (Nat.zero_le j)
        · intro h j hj _; exact h j hj
      have hrec := ih (i + 1) (by omega)
        (fun k hk1 hk2 => hb k (by omega) hk2)
      by_cases hm : matchesAt data sig mask i
      · have : innerCheck data sig mask i 0 (sig.length + 1) = .ok true := by
          rw [hinner]
          congr 1
          rw [decide_eq_true_eq]
          intro j hj _
          exact hm j hj
        constructor
        · intro r
          simp only [findLoop, if_pos hi, this]
          constructor
          · intro h
            cases h
            exact ⟨le_refl i, hi, hm, fun k hk hik => by omega⟩
          · intro ⟨h1, h2, h3, h4⟩
            by_cases hri : r = i
            · rw [hri]
            · exact absurd hm (h4 i (by omega) (le_refl i))
        · simp only [findLoop, if_pos hi, this]
          constructor
          · intro h; cases h
          · intro hnone
            exact absurd hm (hnone i hi (le_refl i))
      · have : innerCheck data sig mask i 0 (sig.length + 1) = .ok false := by
          rw [hinner]
          congr 1
          rw [decide_eq_false_iff_not]
          intro hall
          exact hm (hmeq.mp hall)
        constructor
        · intro r
          simp only [findLoop, if_pos hi, this]
          rw [(hrec.1 r)]
          constructor
          · intro ⟨h1, h2, h3, h4⟩
            refine ⟨by omega, h2, h3, ?_⟩
            intro k hk hik
            rcases Nat.eq_or_lt_of_le hik with h | h
            · subst h; exact hm
            · exact h4 k hk h
          · intro ⟨h1, h2, h3, h4⟩
            refine ⟨?_, h2, h3, ?_⟩
            · rcases Nat.eq_or_lt_of_le h1 with h | h
              · exfalso; subst h; exact hm h3
              · omega
            · intro k hk hik
              exact h4 k hk (by omega)
        · simp only [findLoop, if_pos hi, this]
          rw [hrec.2]
          constructor
          · intro hnone k hk hik
            rcases Nat.eq_or_lt_of_le hik with h | h
            · subst h; exact hm
            · exact hnone k hk h
          · intro hnone k hk hik
            exact hnone k hk (by omega)
    · constructor
      · intro r
        simp only [findLoop, if_neg hi]
        constructor
        · intro h; cases h
        · intro ⟨h1, h2, _, _⟩; omega
      · simp only [findLoop, if_neg hi]
        constructor
        · intro _ k hk hik; omega
        · intro _; trivial

/-- C4 amended: find_pattern returns the smallest index i in
[start, stop) at which the premasked signature matches under the
wildcard/mask rules — the comparison is against signature[j] & mask[j],
not the caller's raw signature byte — and raises the
pattern-not-found error exactly when no index in that range matches.
The range end is len(buffer) - |signature| by default but is replaced
by (not capped at) start + max_iterations when given; the hypothesis
keeps every scanned window inside the buffer, which a too-large maxit
can violate (the code then raises IndexError instead). -/
theorem c4_find_pattern_spec (data : List Nat) (sig : List (Option Nat))
    (mask : Option (List Nat)) (start maxit : Option Nat)
    (hsig : sig ≠ []) (hm : maskOk sig mask)
    (hb : ∀ k, k < searchStop data sig start maxit →
      k + sig.length ≤ data.length) :
    (∀ r, find_pattern data sig mask start maxit = .ok r ↔
        start.getD 0 ≤ r ∧ r < searchStop data sig start maxit ∧
          matchesAt data (effSig sig mask) (effMask mask) r ∧
          ∀ k, k < r → start.getD 0 ≤ k →
            ¬ matchesAt data (effSig sig mask) (effMask mask) k) ∧
      (find_pattern data sig mask start maxit = .error .signatureError ↔
        ∀ k, k < searchStop data sig start maxit → start.getD 0 ≤ k →
          ¬ matchesAt data (effSig sig mask) (effMask mask) k) := by
  cases mask with
  | none =>
    have h := findLoop_eq data sig none (searchStop data sig start maxit)
      hsig (searchStop data sig start maxit + 1) (start.getD 0) (by omega)
      (fun k _ hk2 => hb k hk2)
    simpa [find_pattern, effSig, effMask, searchStop] using h
  | some m =>
    by_cases he : m.isEmpty
    · have h := findLoop_eq data sig none (searchStop data sig start maxit)
        hsig (searchStop data sig start maxit + 1) (start.getD 0) (by omega)
        (fun k _ hk2 => hb k hk2)
      simpa [find_pattern, he, effSig, effMask, searchStop] using h
    · have hm' : sig.length = m.length ∧ none ∉ sig := by
        simp only [maskOk] at hm
        rcases hm with he' | hm'
        · exact absurd he' (by simpa using he)
        · exact hm'
      have hpm := premask_eq_ok sig m hm'.2 hm'.1
      have hplen := premaskedList_length sig m hm'.1
      have hsig2 : premaskedList sig m ≠ [] := by
        intro h0
        apply hsig
        rw [← List.length_eq_zero, ← hplen, h0]
        rfl
      have h := findLoop_eq data (premaskedList sig m) (some m)
        (searchStop data sig start maxit) hsig2
        (searchStop data sig start maxit + 1) (start.getD 0) (by omega)
        (fun k _ hk2 => by rw [hplen]; exact hb k hk2)
      simpa [find_pattern, he, hm'.1, hpm, hplen, effSig, effMask,
        searchStop] using h

/-- C4 counterexample, both flaws at concrete inputs. First: with buffer
[0, 9], signature [1] and mask [0], the claim's condition
(buffer[i+j] & mask[j]) == signature[j] holds nowhere ((0 & 0) is not 1),
so the claimed behaviour is PatternNotFound — but the code premasks the
signature in place to [1 & 0] = [0] and returns index 0. Second: with
buffer [1, 2], signature [2] and max_iterations 5, the claimed stop
min(len - |sig|, start + maxit) = 1 forbids index 1, yet the code
returns 1: maxit replaces the buffer-derived stop instead of capping
it. -/
theorem c4_counterexample :
    (find_pattern [0, 9] [some 1] (some [0]) none none = .ok 0 ∧
        matchElemB [0, 9] [some 1] (some [0]) 0 0 = false) ∧
      (find_pattern [1, 2] [some 2] none none (some 5) = .ok 1 ∧
        min ([1, 2].length - [some 2].length) (0 + 5) ≤ 1) := by
  refine ⟨⟨by decide, by decide⟩, ⟨by decide, by decide⟩⟩

/-- Witness for C4's amended theorem: on buffer [1, 2, 3] and signature
[2] the matcher returns index 1, the least match. -/
theorem c4_witness :
    (([some (2 : Nat)] : List (Option Nat)) ≠ [] ∧
        maskOk [some 2] none ∧
        (∀ k, k < searchStop [1, 2, 3] [some 2] none none →
          k + [some (2 : Nat)].length ≤ [1, 2, 3].length)) ∧
      find_pattern [1, 2, 3] [some 2] none none none = .ok 1 :=
  ⟨⟨by decide, trivial, by decide⟩,
    ((c4_find_pattern_spec [1, 2, 3] [some 2] none none none
        (by decide) trivial (by decide)).1 1).mpr
      ⟨by decide, by decide, by decide, by decide⟩⟩

/-!
## The orchestrator claims (C1, C2, C3)
-/

/-- A concrete assembler interface for evaluating closed instances:
every snippet assembles to the two-byte Thumb nop 00 BF, disassembly
yields empty text, get_reg returns its default. The session paths these
instances exercise never depend on the produced bytes. -/
def cAsmIface : AsmIface :=
  ⟨fun _ => [0x00, 0xBF], fun _ => "", fun _ d => d⟩

/-- A 66-byte N32 firmware image: 64 zero bytes and the stored CRC
FF FF. Its CRC range [0x40, 64) is empty, whose CRC-16 is 0xFFFF, so
the stored value verifies and the constructor classifies the image as
encrypted and XORs it with 0xAA. -/
def imgXor66 : List Nat := List.replicate 64 0 ++ [0xFF, 0xFF]

/-- C1 counterexample: the orchestrator does not append chk. On the
mi5elite (N32) model and a patch list that does not end with chk (the
empty list), the session result differs from the session with chk
appended — had patch_firmware appended chk before dispatching, the two
would be equal. -/
theorem c1_counterexample :
    patch_firmware cAsmIface .mi5elite imgXor66 [] ≠
      patch_firmware cAsmIface .mi5elite imgXor66 ["chk"] := by decide

/-- C1 amended: the orchestrator dispatches exactly the token list it
was given, for every model and interface; appending chk to a list is the
same as running the session and then dispatching one chk step — the
orchestrator itself never adds one (the forcing block in the source is
commented out in favour of the GUI). -/
theorem c1_dispatch_exactly_given (ifc : AsmIface) (m : Model)
    (data : List Nat) (ps : List String) :
    patch_firmware ifc m data (ps ++ ["chk"]) =
      (patch_session ifc m data ps >>= fun st =>
        applyToken ifc m st "chk").map PatchSt.buf := by
  unfold patch_firmware patch_session
  rw [List.foldlM_append]
  simp

/-- C2 counterexample: an empty patch list does not return the input
byte-for-byte on an N32 model — the constructor already decrypted the
image, so patch(mi5elite, imgXor66, []) is the XORed buffer, not
imgXor66. -/
theorem c2_counterexample :
    patch_firmware cAsmIface .mi5elite imgXor66 [] ≠ .ok imgXor66 := by
  decide

/-- C2 amended: with an empty patch list the orchestrator returns the
constructor's buffer. For the LKS32/ES32 families the constructor keeps
the bytes, so the session is the identity; for the N32 family it is the
constructed (extracted and, when the CRC verifies, decrypted) firmware,
which can differ from the input. -/
theorem c2_empty_session (ifc : AsmIface) (I : List Nat) :
    patch_firmware ifc .mi4 I [] = .ok I ∧
      patch_firmware ifc .mi5elite I [] = .ok (n32_init I).data :=
  ⟨rfl, rfl⟩

/-- A 600-byte N32 firmware: 72 ones then 528 zero bytes. The padding
run ends at 600, which rounds up to a recovered firmware size of 640 —
past the end of the buffer, so the checksum write appends. -/
def img600 : List Nat := List.replicate 72 1 ++ List.replicate 528 0

set_option maxRecDepth 40000 in
/-- C3 counterexample: image length is not invariant across a session.
On mi5elite with the 600-byte image and the session [slp, chk] (slp is
in the spec's patch table but not in patch_map, so it is logged and
skipped), the checksum write lands at [638, 640) past the 600-byte end
and the bytearray grows: the output has 602 bytes. -/
theorem c3_counterexample :
    (patch_firmware cAsmIface .mi5elite img600 ["slp", "chk"]).map
        List.length = .ok 602 ∧
      img600.length = 600 :=
  ⟨by decide, by decide⟩

/-- Length of an in-range slice read. -/
theorem getSliceI_length (data : List Nat) (a b : Int) (h0 : 0 ≤ a)
    (hab : a ≤ b) (hb : b ≤ (data.length : Int)) :
    (getSliceI data a b).length = (b - a).toNat := by
  unfold getSliceI normIdx
  rw [if_neg (by omega), if_neg (by omega)]
  rw [List.length_drop, List.length_take]
  omega

/-- Length after an in-range slice write. -/
theorem setSliceI_length (data : List Nat) (a b : Int) (v : List Nat)
    (h0 : 0 ≤ a) (hab : a ≤ b) (hb : b ≤ (data.length : Int)) :
    (setSliceI data a b v).length = data.length - (b - a).toNat + v.length := by
  unfold setSliceI normIdx
  rw [if_neg (by omega), if_neg (by omega)]
  simp only [List.length_append, List.length_take, List.length_drop]
  omega

/-- XORing with the key keeps the length. -/
theorem n32_encrypt_data_length (d : List Nat) :
    (n32_encrypt_data d).length = d.length := by
  simp [n32_encrypt_data]

/-- The end index recorded by the padding scan never passes the end of
the scanned buffer. -/
theorem padScan_le :
    ∀ fuel (rest : List Nat) pos ml me, me ≤ pos →
      (padScan fuel rest pos ml me).2 ≤ pos + rest.length := by
  intro fuel
  induction fuel with
  | zero => intro rest pos ml me hme; simpa [padScan] using by omega
  | succ f ih =>
    intro rest pos ml me hme
    cases rest with
    | nil => simpa [padScan] using by omega
    | cons b t =>
      simp only [padScan]
      by_cases hpad : b = 0xAA ∨ b = 0x00
      · rw [if_pos hpad]
        have htw : (t.takeWhile (fun x => x = b)).length ≤ t.length :=
          (List.takeWhile_sublist _).length_le
        have hdrop :
            (t.drop (1 + (t.takeWhile (fun x => x = b)).length - 1)).length =
              t.length - (1 + (t.takeWhile (fun x => x = b)).length - 1) :=
          List.length_drop _ _
        by_cases hcond :
            ml < 1 + (t.takeWhile (fun x => x = b)).length ∧
              500 < 1 + (t.takeWhile (fun x => x = b)).length
        · rw [if_pos hcond]
          have := ih (t.drop (1 + (t.takeWhile (fun x => x = b)).length - 1))
            (pos + (1 + (t.takeWhile (fun x => x = b)).length))
            (1 + (t.takeWhile (fun x => x = b)).length)
            (pos + (1 + (t.takeWhile (fun x => x = b)).length)) (le_refl _)
          simp only [List.length_cons]
          omega
        · rw [if_neg hcond]
          have := ih (t.drop (1 + (t.takeWhile (fun x => x = b)).length - 1))
            (pos + (1 + (t.takeWhile (fun x => x = b)).length)) ml me
            (by omega)
          simp only [List.length_cons]
          omega
      · rw [if_neg hpad]
        have := ih t (pos + 1) ml me (by omega)
        simp only [List.length_cons]
        omega

/-- On a buffer whose length is a multiple of 128, the recovered
firmware size never exceeds the buffer length: the recorded padding end
is at most the length, and rounding up to the next 128-byte boundary
cannot pass a 128-aligned length. -/
theorem calculate_firmware_size_le (d : List Nat) (h : d.length % 128 = 0) :
    calculate_firmware_size d ≤ d.length := by
  unfold calculate_firmware_size
  have hb := padScan_le d.length d 0 0 0 (le_refl 0)
  by_cases h2 : 0 < (padScan d.length d 0 0 0).2
  · rw [if_pos h2]
    omega
  · rw [if_neg h2]

/-- The buffer length produced by one fix_checksum call: that of the
result on success, the untouched input on an exception (in web mode the
exception propagates and no buffer is returned). -/
def n32_fix_result_len (st : N32St) : Nat :=
  match n32_fix_checksum st with
  | .ok s2 => s2.data.length
  | .error _ => st.data.length

/-- C3 amended: image length is not invariant on N32. The constructor
maps every enveloped input (0x80-byte header plus footer) to the bare
0x9880-byte firmware — header and footer are dropped and never
reattached by the session since create_full_image is not dispatchable —
and the trailing checksum fix keeps the firmware length exactly when the
buffer length is a multiple of 128 (the recovered size then stays in
range; the counterexample shows growth otherwise). -/
theorem c3_n32_length (I : List Nat) (st : N32St)
    (hI : 0x80 + 0x9880 ≤ I.length) (hst : st.data.length % 128 = 0) :
    (n32_init I).data.length = 0x9880 ∧
      n32_fix_result_len st = st.data.length := by
  constructor
  · have hfw : (getSliceI I 128 39168).length = 0x9880 := by
      have := getSliceI_length I 128 39168 (by omega) (by omega) (by omega)
      simpa using this
    unfold n32_init
    rw [if_pos hI]
    by_cases henc : n32_is_encrypted (getSliceI I 128 39168) = true
    · simp [henc, n32_decrypt_data, n32_encrypt_data_length, hfw]
    · simp [henc, hfw]
  · have hlen1 : (n32_fix_stage1 st).data.length = st.data.length := by
      unfold n32_fix_stage1
      by_cases hc : (st.was_encrypted && !n32_is_encrypted st.data) = true
      · simp [hc, n32_encrypt_data_length]
      · simp [hc]
    have hle : calculate_firmware_size (n32_fix_stage1 st).data ≤
        st.data.length := by
      have := calculate_firmware_size_le (n32_fix_stage1 st).data
        (by rw [hlen1]; exact hst)
      omega
    unfold n32_fix_result_len n32_fix_checksum n32_patch_firmware_crc
    by_cases hsmall :
        calculate_firmware_size (n32_fix_stage1 st).data < 0x42
    · rw [if_pos hsmall]
    · rw [if_neg hsmall]
      show (setSliceI (n32_fix_stage1 st).data
          (calculate_firmware_size (n32_fix_stage1 st).data - 2)
          (calculate_firmware_size (n32_fix_stage1 st).data)
          (beBytes2 (crc16_with_bit_reversal (getSliceI
            (n32_fix_stage1 st).data 0x40
            (calculate_firmware_size (n32_fix_stage1 st).data - 2))))).length =
        st.data.length
      rw [setSliceI_length _ _ _ _ (by omega) (by omega) (by omega)]
      simp only [beBytes2, List.length_cons, List.length_nil]
      omega

/-- Witness for C3's amended theorem: a 39168-byte envelope image is
reduced to the 0x9880-byte firmware, and fix_checksum preserves the
length of a 128-byte firmware state. -/
theorem c3_witness :
    (0x80 + 0x9880 ≤ (List.replicate 39168 (0 : Nat)).length ∧
        (List.replicate 128 (0 : Nat)).length % 128 = 0) ∧
      ((n32_init (List.replicate 39168 0)).data.length = 0x9880 ∧
        n32_fix_result_len ⟨List.replicate 128 0, false, none, none⟩ =
          (List.replicate 128 (0 : Nat)).length) :=
  ⟨⟨by rw [List.length_replicate], by rw [List.length_replicate]⟩,
    c3_n32_length (List.replicate 39168 0)
      ⟨List.replicate 128 0, false, none, none⟩
      (by rw [List.length_replicate]) (by rw [List.length_replicate])⟩

/-!
## Binary64 rounding facts (C7)
-/

/-- The exponent scan brackets its input: starting from a valid lower
power with enough fuel, it stops at the unique e with 2^e ≤ x < 2^(e+1). -/
theorem dExpUp_bracket :
    ∀ (fuel : Nat) (e : Int) (p x : ℚ), p = 2 ^ (e + 1) → 2 ^ e ≤ x →
      x < 2 ^ (e + 1 + (fuel : Int)) →
      2 ^ dExpUp fuel e p x ≤ x ∧ x < 2 ^ (dExpUp fuel e p x + 1) := by
  intro fuel
  induction fuel with
  | zero =>
    intro e p x hp hl hu
    simp only [dExpUp]
    refine ⟨hl, ?_⟩
    simpa using hu
  | succ f ih =>
    intro e p x hp hl hu
    simp only [dExpUp]
    by_cases hc : p ≤ x
    · rw [if_pos hc]
      refine ih (e + 1) (p * 2) x ?_ (by rw [hp] at hc; exact hc) ?_
      · rw [hp, ← zpow_add_one₀ (by norm_num : (2:ℚ) ≠ 0)]
      · calc x < 2 ^ (e + 1 + ((f + 1 : Nat) : Int)) := hu
          _ = 2 ^ (e + 1 + 1 + (f : Int)) := by
            congr 1
            push_cast
            ring
    · rw [if_neg hc]
      rw [hp] at hc
      exact ⟨hl, lt_of_not_le hc⟩

/-- Round-to-nearest never moves by more than one half. -/
theorem rne_le (m : ℚ) : (rne m : ℚ) ≤ m + 1 / 2 := by
  unfold rne
  split_ifs with h1 h2 h3 <;> push_cast <;>
    [linarith [Int.floor_le m]; linarith [h2]; linarith [Int.floor_le m];
     linarith [not_lt.mp h1, not_lt.mp h2]]

/-- Round-to-nearest never moves by more than one half (lower side). -/
theorem rne_ge (m : ℚ) : m - 1 / 2 ≤ (rne m : ℚ) := by
  unfold rne
  split_ifs with h1 h2 h3 <;> push_cast <;>
    [linarith [h1]; linarith [Int.lt_floor_add_one m];
     linarith [Int.lt_floor_add_one m]; linarith [Int.lt_floor_add_one m]]

/-- Round-to-nearest is exact on integers. -/
theorem rne_intCast (n : ℤ) : rne (n : ℚ) = n := by
  unfold rne
  rw [Int.floor_intCast]
  norm_num

/-- The binary64 rounding of a value in [1, 2^1100) moves it by at most
its 2^-53 multiple: binary64 multiplication is correct to half an ulp. -/
theorem roundDouble_close (x : ℚ) (h1 : 1 ≤ x)
    (hu : x < 2 ^ (1100 : Int)) :
    x - x / 2 ^ (53 : Int) ≤ roundDouble x ∧
      roundDouble x ≤ x + x / 2 ^ (53 : Int) := by
  have hb := dExpUp_bracket 1100 0 2 x (by norm_num) (by simpa using h1)
    (by simpa using hu.trans (by norm_num : (2:ℚ) ^ (1100 : Int) < 2 ^ (0 + 1 + (1100:Int))))
  unfold roundDouble dExp
  rw [if_neg (by linarith), if_pos h1]
  obtain ⟨hbl, hbu⟩ := hb
  have hep : (0:ℚ) < 2 ^ (dExpUp 1100 0 2 x - 52) := zpow_pos (by norm_num) _
  have hulp : (2:ℚ) ^ (dExpUp 1100 0 2 x - 52) / 2 = 2 ^ (dExpUp 1100 0 2 x - 53) := by
    rw [show dExpUp 1100 0 2 x - 53 = dExpUp 1100 0 2 x - 52 - 1 by ring,
      zpow_sub_one₀ (by norm_num : (2:ℚ) ≠ 0), div_eq_mul_inv]
  have hsmall : (2:ℚ) ^ (dExpUp 1100 0 2 x - 53) ≤ x / 2 ^ (53 : Int) := by
    have h2e : (2:ℚ) ^ (dExpUp 1100 0 2 x - 53) =
        2 ^ dExpUp 1100 0 2 x / 2 ^ (53 : Int) := by
      rw [← zpow_sub₀ (by norm_num : (2:ℚ) ≠ 0)]
    rw [h2e]
    gcongr
  have hge := rne_ge (x / 2 ^ (dExpUp 1100 0 2 x - 52))
  have hle := rne_le (x / 2 ^ (dExpUp 1100 0 2 x - 52))
  constructor
  · have := mul_le_mul_of_nonneg_right hge (le_of_lt hep)
    rw [sub_mul, div_mul_cancel₀ _ (ne_of_gt hep)] at this
    have h12 : 1 / 2 * (2:ℚ) ^ (dExpUp 1100 0 2 x - 52) =
        2 ^ (dExpUp 1100 0 2 x - 53) := by
      rw [← hulp]; ring
    rw [h12] at this
    linarith
  · have := mul_le_mul_of_nonneg_right hle (le_of_lt hep)
    rw [add_mul, div_mul_cancel₀ _ (ne_of_gt hep)] at this
    have h12 : 1 / 2 * (2:ℚ) ^ (dExpUp 1100 0 2 x - 52) =
        2 ^ (dExpUp 1100 0 2 x - 53) := by
      rw [← hulp]; ring
    rw [h12] at this
    linarith

/-- The truncated rounded product of a value in [1, 2^53) below B - 1 is
a nonnegative integer below B. -/
theorem pyInt_roundDouble (x : ℚ) (B : ℤ) (h1 : 1 ≤ x)
    (h53 : x < 2 ^ (53 : Int)) (hB : x + 1 ≤ (B : ℚ)) :
    pyInt (roundDouble x) = ⌊roundDouble x⌋ ∧
      0 ≤ pyInt (roundDouble x) ∧ pyInt (roundDouble x) < B := by
  have hu : x < 2 ^ (1100 : Int) := by
    calc x < 2 ^ (53 : Int) := h53
      _ ≤ 2 ^ (1100 : Int) := by
        rw [show ((53 : Int)) = ((53 : Nat) : Int) by norm_num,
          show ((1100 : Int)) = ((1100 : Nat) : Int) by norm_num,
          zpow_natCast, zpow_natCast]
        exact pow_le_pow_right₀ (by norm_num) (by norm_num)
  have hc := roundDouble_close x h1 hu
  have hfrac : x / 2 ^ (53 : Int) < 1 := by
    rw [div_lt_one (by positivity)]
    exact h53
  have hfracpos : 0 ≤ x / 2 ^ (53 : Int) := by positivity
  have hrd0 : 0 ≤ roundDouble x := by linarith
  have hrdB : roundDouble x < (B : ℚ) := by linarith
  refine ⟨by unfold pyInt; rw [if_pos hrd0], ?_, ?_⟩
  · unfold pyInt
    rw [if_pos hrd0]
    exact Int.floor_nonneg.mpr hrd0
  · unfold pyInt
    rw [if_pos hrd0]
    exact Int.floor_lt.mpr hrdB

/-- C7 amended: over the documented range each converter returns the
truncation (toward zero) of the binary64 product of its factor with the
argument, encoded little-endian at width 2 (ES32), 4 (LKS32) and 1 (N32);
the N32 1-byte encoding only exists up to 25.5 km/h (beyond, to_bytes
overflows), and the rounded product is within half an ulp (relative
2^-53) of the exact product — but its truncation need not equal
floor(factor * kmh), as the counterexample shows. -/
theorem c7_calc_speed_trunc (q : ℚ) (h1 : 1 ≤ q) (h2 : q ≤ 79 / 2) :
    (es32_calc_speed q =
        .ok (.inr (leBytes 2 (pyInt (floatMul fl209 q)).toNat)) ∧
      (pyInt (floatMul fl209 q)).toNat < 2 ^ 16) ∧
    (lks32_calc_speed q =
        .ok (.inr (leBytes 4 (pyInt (floatMul q 10)).toNat)) ∧
      (pyInt (floatMul q 10)).toNat < 2 ^ 32) ∧
    (q ≤ 51 / 2 →
      n32_calc_speed q =
          .ok (.inr (leBytes 1 (pyInt (floatMul 10 q)).toNat)) ∧
        (pyInt (floatMul 10 q)).toNat < 2 ^ 8) ∧
    (fl209 * q - fl209 * q / 2 ^ (53 : Int) ≤ floatMul fl209 q ∧
      floatMul fl209 q ≤ fl209 * q + fl209 * q / 2 ^ (53 : Int)) := by
  have h2p53 : (830 : ℚ) < 2 ^ (53 : Int) := by
    rw [show ((53 : Int)) = ((53 : Nat) : Int) by norm_num, zpow_natCast]
    norm_num
  have hf209a : (1 : ℚ) ≤ fl209 := by norm_num [fl209]
  have hf209b : fl209 ≤ (21 : ℚ) := by norm_num [fl209]
  obtain ⟨he1, he2, he3⟩ := pyInt_roundDouble (fl209 * q) 65536
    (by nlinarith) (by nlinarith) (by push_cast; nlinarith)
  obtain ⟨hl1, hl2, hl3⟩ := pyInt_roundDouble (q * 10) 4294967296
    (by nlinarith) (by nlinarith) (by push_cast; nlinarith)
  refine ⟨⟨?_, ?_⟩, ⟨?_, ?_⟩, ?_, ?_⟩
  · simp only [es32_calc_speed, floatMul, toBytesLE]
    rw [if_neg (by norm_num),
      if_neg (by push_neg; exact ⟨he2, lt_of_lt_of_le he3 (by norm_num)⟩)]
    rfl
  · simp only [floatMul]
    omega
  · simp only [lks32_calc_speed, floatMul, toBytesLE]
    rw [if_neg (by norm_num),
      if_neg (by push_neg; exact ⟨hl2, lt_of_lt_of_le hl3 (by norm_num)⟩)]
    rfl
  · simp only [floatMul]
    omega
  · intro h3
    obtain ⟨hn1, hn2, hn3⟩ := pyInt_roundDouble (10 * q) 256
      (by nlinarith) (by nlinarith) (by push_cast; nlinarith)
    constructor
    · simp only [n32_calc_speed, floatMul, toBytesLE]
      rw [if_neg (by norm_num),
        if_neg (by push_neg; exact ⟨hn2, lt_of_lt_of_le hn3 (by norm_num)⟩)]
      rfl
    · simp only [floatMul]
      omega
  · have hu : fl209 * q < 2 ^ (1100 : Int) := by
      have hx : fl209 * q < 2 ^ (53 : Int) := by nlinarith
      calc fl209 * q < 2 ^ (53 : Int) := hx
        _ ≤ 2 ^ (1100 : Int) := by
          rw [show ((53 : Int)) = ((53 : Nat) : Int) by norm_num,
            show ((1100 : Int)) = ((1100 : Nat) : Int) by norm_num,
            zpow_natCast, zpow_natCast]
          exact pow_le_pow_right₀ (by norm_num) (by norm_num)
    exact roundDouble_close (fl209 * q) (by nlinarith) hu

/-- The binary exponent is the unique e with 2^e ≤ x < 2^(e+1). -/
theorem dExp_eq (x : ℚ) (e : Int) (h1 : 1 ≤ x)
    (hu1100 : x < 2 ^ (1100 : Int)) (hl : 2 ^ e ≤ x)
    (hu : x < 2 ^ (e + 1)) : dExp x = e := by
  unfold dExp
  rw [if_pos h1]
  have hstep : (2:ℚ) ^ (1100 : Int) ≤ 2 ^ (0 + 1 + ((1100 : Nat) : Int)) := by
    apply zpow_le_zpow_right₀ (by norm_num)
    omega
  have hb := dExpUp_bracket 1100 0 2 x (by norm_num) (by simpa using h1)
    (lt_of_lt_of_le hu1100 hstep)
  by_contra hne
  rcases lt_or_gt_of_ne hne with h | h
  · have h2 : (2:ℚ) ^ (dExpUp 1100 0 2 x + 1) ≤ 2 ^ e :=
      zpow_le_zpow_right₀ (by norm_num) (by omega)
    linarith [hb.2, hl]
  · have h2 : (2:ℚ) ^ (e + 1) ≤ 2 ^ dExpUp 1100 0 2 x :=
      zpow_le_zpow_right₀ (by norm_num) (by omega)
    linarith [hb.1, hu]

/-- The rounded value, written through the rounded significand. -/
theorem roundDouble_eq_of (x : ℚ) (e : Int) (n : ℤ) (h1 : 1 ≤ x)
    (h1100 : x < 2 ^ (1100 : Int)) (hl : 2 ^ e ≤ x) (hu : x < 2 ^ (e + 1))
    (hn : rne (x / 2 ^ (e - 52)) = n) :
    roundDouble x = (n : ℚ) * 2 ^ (e - 52) := by
  unfold roundDouble
  rw [if_neg (by linarith), dExp_eq x e h1 h1100 hl hu, hn]

/-- Everything below 2^53 is far below the top of the modelled range. -/
theorem small_lt_pow1100 (x : ℚ) (h : x < 2 ^ (53 : Nat)) :
    x < 2 ^ (1100 : Int) := by
  calc x < 2 ^ (53 : Nat) := h
    _ = 2 ^ ((53 : Nat) : Int) := by rw [zpow_natCast]
    _ ≤ 2 ^ (1100 : Int) := zpow_le_zpow_right₀ (by norm_num) (by omega)

/-- C7 counterexample: at the binary64 value of 1.2 (which is slightly
below 1.2), the N32 converter returns the byte 12 although
floor(10 * kmh) = 11 — the multiplication rounds up to exactly 12.0
before int() truncates. And at 30.0 km/h, inside the documented
1.0–39.5 range, the default 1-byte encoding raises OverflowError
(int(300) does not fit one byte) instead of returning a byte. -/
theorem c7_counterexample :
    n32_calc_speed fl12 = .ok (.inr [12]) ∧ ⌊(10 : ℚ) * fl12⌋ = 11 ∧
      n32_calc_speed 30 = .error .overflowError := by
  have hm : (10 : ℚ) * fl12 / 2 ^ ((3 : Int) - 52) =
      27021597764222975 / 4 := by
    rw [show ((3 : Int) - 52) = -(49 : Int) by norm_num, zpow_neg,
      div_eq_mul_inv, inv_inv,
      show ((49 : Int)) = ((49 : Nat) : Int) by norm_num, zpow_natCast]
    norm_num [fl12]
  have hfl : (⌊(27021597764222975 : ℚ) / 4⌋ : Int) = 6755399441055743 := by
    rw [Int.floor_eq_iff]
    constructor <;> norm_num
  have hrne : rne ((10 : ℚ) * fl12 / 2 ^ ((3 : Int) - 52)) =
      6755399441055744 := by
    rw [hm]
    unfold rne
    rw [hfl]
    norm_num
  have hrd : roundDouble ((10 : ℚ) * fl12) = 12 := by
    have h12 := roundDouble_eq_of ((10 : ℚ) * fl12) 3 6755399441055744
      (by norm_num [fl12]) (small_lt_pow1100 _ (by norm_num [fl12]))
      (by rw [show ((3 : Int)) = ((3 : Nat) : Int) by norm_num, zpow_natCast]
          norm_num [fl12])
      (by rw [show ((3 : Int) + 1) = ((4 : Nat) : Int) by norm_num,
            zpow_natCast]
          norm_num [fl12])
      hrne
    rw [h12, show ((3 : Int) - 52) = -(49 : Int) by norm_num, zpow_neg,
      show ((49 : Int)) = ((49 : Nat) : Int) by norm_num, zpow_natCast]
    norm_num
  have hv : pyInt (floatMul 10 fl12) = 12 := by
    unfold floatMul pyInt
    rw [hrd, if_pos (by norm_num)]
    rw [show ((12 : ℚ)) = ((12 : ℤ) : ℚ) by norm_num, Int.floor_intCast]
  have hm30 : (10 : ℚ) * 30 / 2 ^ ((8 : Int) - 52) =
      ((5277655813324800 : ℤ) : ℚ) := by
    rw [show ((8 : Int) - 52) = -(44 : Int) by norm_num, zpow_neg,
      div_eq_mul_inv, inv_inv,
      show ((44 : Int)) = ((44 : Nat) : Int) by norm_num, zpow_natCast]
    norm_num
  have hrne30 : rne ((10 : ℚ) * 30 / 2 ^ ((8 : Int) - 52)) =
      5277655813324800 := by
    rw [hm30, rne_intCast]
  have hrd30 : roundDouble ((10 : ℚ) * 30) = 300 := by
    have h300 := roundDouble_eq_of ((10 : ℚ) * 30) 8 5277655813324800
      (by norm_num) (small_lt_pow1100 _ (by norm_num))
      (by rw [show ((8 : Int)) = ((8 : Nat) : Int) by norm_num, zpow_natCast]
          norm_num)
      (by rw [show ((8 : Int) + 1) = ((9 : Nat) : Int) by norm_num,
            zpow_natCast]
          norm_num)
      hrne30
    rw [h300, show ((8 : Int) - 52) = -(44 : Int) by norm_num, zpow_neg,
      show ((44 : Int)) = ((44 : Nat) : Int) by norm_num, zpow_natCast]
    norm_num
  have hv30 : pyInt (floatMul 10 (30 : ℚ)) = 300 := by
    unfold floatMul pyInt
    rw [hrd30, if_pos (by norm_num)]
    rw [show ((300 : ℚ)) = ((300 : ℤ) : ℚ) by norm_num, Int.floor_intCast]
  refine ⟨?_, ?_, ?_⟩
  · simp only [n32_calc_speed, hv, toBytesLE]
    rw [if_neg (by norm_num), if_neg (by norm_num)]
    rfl
  · rw [Int.floor_eq_iff]
    constructor <;> norm_num [fl12]
  · simp only [n32_calc_speed, hv30, toBytesLE]
    rw [if_neg (by norm_num), if_pos (by norm_num)]
    rfl

/-- Witness for C7's amended theorem at 2.0 km/h (exact in binary64):
the ES32 converter yields the 2-byte encoding of 41. -/
theorem c7_witness :
    ((1 : ℚ) ≤ 2 ∧ (2 : ℚ) ≤ 79 / 2) ∧
      (es32_calc_speed 2 =
          .ok (.inr (leBytes 2 (pyInt (floatMul fl209 2)).toNat)) ∧
        (pyInt (floatMul fl209 2)).toNat < 2 ^ 16) :=
  ⟨⟨by norm_num, by norm_num⟩,
    (c7_calc_speed_trunc 2 (by norm_num) (by norm_num)).1⟩

/-- The inner search loop can only fail with IndexError. -/
theorem innerCheck_error_eq (data : List Nat) (sig : List (Option Nat))
    (mask : Option (List Nat)) (i : Nat) :
    ∀ fuel k e, innerCheck data sig mask i k fuel = .error e →
      e = .indexError := by
  intro fuel
  induction fuel with
  | zero =>
    intro k e h
    simp only [innerCheck] at h
    injection h with h2
    exact h2.symm
  | succ f ih =>
    intro k e h
    cases hel : sig[k]? with
    | none =>
      simp only [innerCheck, hel] at h
      injection h with h2
      exact h2.symm
    | some el =>
      cases el with
      | none =>
        simp only [innerCheck, hel] at h
        by_cases hlast : k + 1 = sig.length
        · rw [if_pos hlast] at h
          cases h
        · rw [if_neg hlast] at h
          exact ih (k + 1) e h
      | some s =>
        cases hdd : data[i + k]? with
        | none =>
          simp only [innerCheck, hel, hdd] at h
          injection h with h2
          exact h2.symm
        | some d =>
          simp only [innerCheck, hel, hdd] at h
          by_cases hcmp : s = d &&& maskAt mask k
          · rw [if_pos hcmp] at h
            by_cases hlast : k + 1 = sig.length
            · rw [if_pos hlast] at h
              cases h
            · rw [if_neg hlast] at h
              exact ih (k + 1) e h
          · rw [if_neg hcmp] at h
            cases h

/-- The outer search loop can only fail with SignatureException or
IndexError. -/
theorem findLoop_error_eq (data : List Nat) (sig : List (Option Nat))
    (mask : Option (List Nat)) :
    ∀ fuel i stop e, findLoop data sig mask i stop fuel = .error e →
      e = .signatureError ∨ e = .indexError := by
  intro fuel
  induction fuel with
  | zero =>
    intro i stop e h
    simp only [findLoop] at h
    injection h with h2
    exact .inl h2.symm
  | succ f ih =>
    intro i stop e h
    simp only [findLoop] at h
    by_cases hi : i < stop
    · rw [if_pos hi] at h
      cases hc : innerCheck data sig mask i 0 (sig.length + 1) with
      | ok b =>
        rw [hc] at h
        cases b
        · exact ih (i + 1) stop e h
        · cases h
      | error e2 =>
        rw [hc] at h
        have he2 := innerCheck_error_eq data sig mask i _ _ _ hc
        subst he2
        injection h with h2
        exact .inr h2.symm
    · rw [if_neg hi] at h
      injection h with h2
      exact .inl h2.symm

/-- A mask-less find_pattern call can only fail with SignatureException
or IndexError — never with an AssertionError. -/
theorem find_pattern_none_error (data : List Nat) (sig : List (Option Nat))
    (start maxit : Option Nat) (e : PyErr)
    (h : find_pattern data sig none start maxit = .error e) :
    e = .signatureError ∨ e = .indexError := by
  unfold find_pattern at h
  exact findLoop_error_eq data sig none _ _ _ _ h

/-- A 40-byte buffer carrying mi4's drive-limit site at offset 0, the
branch-source signature at offset 10 and the branch-destination signature
at offset 18, so that speed_limit_drive runs to completion. -/
def mi4Cex : List Nat :=
  [0xCA, 1, 1, 0x80, 1, 1, 0xB9, 0x21, 1, 0x80,
   0x20, 0x31, 1, 0x72, 0x0F, 1, 1, 0x72,
   0xF5, 0x31, 0x01, 0x83, 0x11, 0x48] ++ List.replicate 16 0x11

/-- C8 counterexample: mi4's speed_limit_drive performs no range check at
all — at 1000 km/h, far outside the documented 1.0–39.5 range, the patch
succeeds instead of raising anything to the caller. -/
theorem c8_counterexample :
    (mi4_speed_limit_drive cAsmIface mi4Cex 1000).isOk = true ∧
      ¬((1 : ℚ) ≤ 1000 ∧ (1000 : ℚ) ≤ 79 / 2) := by
  have hm : (1000 : ℚ) * 10 / 2 ^ ((13 : Int) - 52) =
      ((5497558138880000 : ℤ) : ℚ) := by
    rw [show ((13 : Int) - 52) = -(39 : Int) by norm_num, zpow_neg,
      div_eq_mul_inv, inv_inv,
      show ((39 : Int)) = ((39 : Nat) : Int) by norm_num, zpow_natCast]
    norm_num
  have hrne : rne ((1000 : ℚ) * 10 / 2 ^ ((13 : Int) - 52)) =
      5497558138880000 := by rw [hm, rne_intCast]
  have hrd : roundDouble ((1000 : ℚ) * 10) = 10000 := by
    have h10k := roundDouble_eq_of ((1000 : ℚ) * 10) 13 5497558138880000
      (by norm_num) (small_lt_pow1100 _ (by norm_num))
      (by rw [show ((13 : Int)) = ((13 : Nat) : Int) by norm_num,
            zpow_natCast]
          norm_num)
      (by rw [show ((13 : Int) + 1) = ((14 : Nat) : Int) by norm_num,
            zpow_natCast]
          norm_num)
      hrne
    rw [h10k, show ((13 : Int) - 52) = -(39 : Int) by norm_num, zpow_neg,
      show ((39 : Int)) = ((39 : Nat) : Int) by norm_num, zpow_natCast]
    norm_num
  have hkey : pyInt (floatMul (1000 : ℚ) 10) = 10000 := by
    unfold floatMul pyInt
    rw [hrd, if_pos (by norm_num)]
    rw [show ((10000 : ℚ)) = ((10000 : ℤ) : ℚ) by norm_num,
      Int.floor_intCast]
  constructor
  · simp only [mi4_speed_limit_drive, hkey]
    decide
  · norm_num

/-- C8 (amended): on mi4, only dashboard_max_speed checks its range — a
bare assert that raises AssertionError (not a dedicated parameter error)
for speeds outside [1.0, float(29.6)], and never raises that error for
speeds inside it; speed_limit_drive performs no range check at all: its
outcome depends on the speed only through the 4-byte literal
int(kmh * 10), so any two speeds producing the same literal are treated
identically. -/
theorem c8_mi4_range_behaviour :
    (∀ (ifc : AsmIface) (data : List Nat) (speed : ℚ),
        ¬(1 ≤ speed ∧ speed ≤ fl296) →
        mi4_dashboard_max_speed ifc data speed =
          .error (.assertionError "Speed must be between 1.0 and 29.6km/h")) ∧
    (∀ (ifc : AsmIface) (data : List Nat) (speed : ℚ),
        1 ≤ speed → speed ≤ fl296 →
        mi4_dashboard_max_speed ifc data speed ≠
          .error (.assertionError "Speed must be between 1.0 and 29.6km/h")) ∧
    (∀ (ifc : AsmIface) (data : List Nat) (k1 k2 : ℚ),
        pyInt (floatMul k1 10) = pyInt (floatMul k2 10) →
        mi4_speed_limit_drive ifc data k1 =
          mi4_speed_limit_drive ifc data k2) := by
  refine ⟨?_, ?_, ?_⟩
  · intro ifc data speed h
    simp only [mi4_dashboard_max_speed]
    rw [if_pos h]
  · intro ifc data speed h1 h2
    simp only [mi4_dashboard_max_speed]
    rw [if_neg (not_not_intro ⟨h1, h2⟩)]
    cases hf : find_pattern data (bytesSig [0x01, 0x46, 0xF3, 0x39, 0x11,
        0x29, 0x00, 0xD2, 0xFF, 0x20]) with
    | error e =>
      simp only [hf]
      intro hc
      injection hc with he
      rcases find_pattern_none_error data _ none none e hf with h3 | h3
      · cases h3.symm.trans he
      · cases h3.symm.trans he
    | ok ofs =>
      simp only [hf]
      by_cases hl : (ifc.asm (mi4_dms_snippet
          (pyInt (floatMul (floatDiv speed 2) 10)))).length ≠ 10
      · rw [if_pos hl]
        intro hc
        injection hc with he
        injection he with hs
        exact absurd hs (by decide)
      · rw [if_neg hl]
        intro hc
        cases hc
  · intro ifc data k1 k2 hk
    simp only [mi4_speed_limit_drive, hk]

/-- Witness for C8's amended theorem: 30 km/h is rejected by the
dashboard assert (float(29.6) < 30), 2 km/h passes it, and
speed_limit_drive is congruent at equal literals. -/
theorem c8_witness :
    (¬((1 : ℚ) ≤ 30 ∧ (30 : ℚ) ≤ fl296) ∧
      mi4_dashboard_max_speed cAsmIface [] 30 =
        .error (.assertionError "Speed must be between 1.0 and 29.6km/h")) ∧
    ((1 : ℚ) ≤ 2 ∧ (2 : ℚ) ≤ fl296 ∧
      mi4_dashboard_max_speed cAsmIface [] 2 ≠
        .error (.assertionError "Speed must be between 1.0 and 29.6km/h")) ∧
    mi4_speed_limit_drive cAsmIface [] 5 =
      mi4_speed_limit_drive cAsmIface [] 5 := by
  have hout : ¬((1 : ℚ) ≤ 30 ∧ (30 : ℚ) ≤ fl296) := by
    norm_num [fl296]
  have h1 : (1 : ℚ) ≤ 2 := by norm_num
  have h2 : (2 : ℚ) ≤ fl296 := by norm_num [fl296]
  exact ⟨⟨hout, c8_mi4_range_behaviour.1 cAsmIface [] 30 hout⟩,
    ⟨h1, h2, c8_mi4_range_behaviour.2.1 cAsmIface [] 2 h1 h2⟩,
    c8_mi4_range_behaviour.2.2 cAsmIface [] 5 5 rfl⟩
